import Mathlib

/-!
# Snake: a verification development of `main.go`

The game state machine of `main.go` (`initialModel`, `model.Update`) and its renderer
(`model.View`) are embedded as pure Lean functions.

* Go's `int` is a 64-bit two's complement integer: fields are `Int`, the two
  increments/decrements of the source (`m.tickCount++`, `newHead.x--`, ...) wrap
  through `wrap64`, and `m.tickCount%2` is Go's truncated remainder `Int.tmod`.
* `tea.Msg` is an interface; `Update` switches on its dynamic type, so a message
  is a key (identified by what `msg.String()` returns), a `time.Time`, or anything else.
* The `tea.Cmd` returned next to the model is `nil`, `tea.Quit` or `tick()`.
* `rand.Intn(n)` belongs to Go's standard library: it panics for `n <= 0` and
  otherwise returns some value of `[0, n)`. The value is chosen by an entropy word
  supplied from outside, so that `Update` stays a function.
* A Go panic (index out of range, `rand.Intn` on a non-positive bound, `make` with a
  length that is negative or beyond the runtime's allocation limit) is `none`.
* `View` builds a grid of runes and then turns it into text; lipgloss's `Style.Render`
  belongs to an external library and is a parameter of `View`.
-/

namespace Snake

/-! ## Data model -/

/-- The direction type of the source: `up`, `down`, `left`, `right`. -/
inductive direction where
  | up
  | down
  | left
  | right
  deriving DecidableEq, Repr

/-- Grid coordinates. -/
structure position where
  x : Int
  y : Int
  deriving DecidableEq, Repr

/-- The game state. -/
structure model where
  snake : List position
  direction : direction
  food : position
  width : Int
  height : Int
  gameOver : Bool
  tickCount : Int
  deriving DecidableEq, Repr

/-- The messages `Update` distinguishes: a `tea.KeyMsg` (carried as the text
`msg.String()` yields), a `time.Time`, and every other dynamic type. -/
inductive Msg where
  | key (s : String)
  | time
  | other
  deriving DecidableEq, Repr

/-- The command returned by `Update`: `nil`, `tea.Quit`, or `tick()`. -/
inductive Cmd where
  | nil
  | quit
  | tick
  deriving DecidableEq, Repr

/-! ## Machine arithmetic and the random source -/

/-- Two's complement wrap-around of a 64-bit signed integer. -/
def wrap64 (v : Int) : Int := (v + 9223372036854775808) % 18446744073709551616 - 9223372036854775808

/-- The contract of `rand.Intn`: a panic for `n <= 0`, otherwise a value of `[0, n)`
selected by the entropy word `r`. -/
def Intn (n : Int) (r : Nat) : Option Int :=
  if n ≤ 0 then none else some ((r : Int) % n)

/-! ## The program -/

/-- The `newHead` computed by `Update`: a copy of `head` moved one cell by the
`switch m.direction` of the source. -/
def newHead (d : direction) (head : position) : position :=
  match d with
  | direction.up => { head with y := wrap64 (head.y - 1) }
  | direction.down => { head with y := wrap64 (head.y + 1) }
  | direction.left => { head with x := wrap64 (head.x - 1) }
  | direction.right => { head with x := wrap64 (head.x + 1) }

/-- Source `initialModel`; `rx`, `ry` feed the two `rand.Intn` calls in source order. -/
def initialModel (rx ry : Nat) : Option model :=
  let width : Int := 20
  let height : Int := 10
  let snake : List position := [{ x := Int.tdiv width 2, y := Int.tdiv height 2 }]
  match Intn width rx with
  | none => none
  | some fx =>
    match Intn height ry with
    | none => none
    | some fy =>
      some { snake := snake, direction := direction.right, food := { x := fx, y := fy },
             width := width, height := height, gameOver := false, tickCount := 0 }

/-- Source `model.Update`; `rx`, `ry` feed the two `rand.Intn` calls of the food
respawn in source order. -/
def Update (m : model) (msg : Msg) (rx ry : Nat) : Option (model × Cmd) :=
  if m.gameOver then some (m, Cmd.nil)
  else
    match msg with
    | Msg.key s =>
      if s = "ctrl+c" ∨ s = "q" then some (m, Cmd.quit)
      else if s = "w" then
        some (if m.direction ≠ direction.down then { m with direction := direction.up } else m, Cmd.nil)
      else if s = "s" then
        some (if m.direction ≠ direction.up then { m with direction := direction.down } else m, Cmd.nil)
      else if s = "a" then
        some (if m.direction ≠ direction.right then { m with direction := direction.left } else m, Cmd.nil)
      else if s = "d" then
        some (if m.direction ≠ direction.left then { m with direction := direction.right } else m, Cmd.nil)
      else some (m, Cmd.nil)
    | Msg.time =>
      let m1 : model := { m with tickCount := wrap64 (m.tickCount + 1) }
      if Int.tmod m1.tickCount 2 = 0 then
        match m1.snake with
        | [] => none
        | head :: _ =>
          let nh := newHead m1.direction head
          if nh.x < 0 ∨ nh.x ≥ m1.width ∨ nh.y < 0 ∨ nh.y ≥ m1.height then
            some ({ m1 with gameOver := true }, Cmd.nil)
          else if m1.snake.any (fun p => decide (p = nh)) then
            some ({ m1 with gameOver := true }, Cmd.nil)
          else
            let m2 : model := { m1 with snake := nh :: m1.snake }
            if nh = m2.food then
              match Intn m2.width rx with
              | none => none
              | some fx =>
                match Intn m2.height ry with
                | none => none
                | some fy => some ({ m2 with food := { x := fx, y := fy } }, Cmd.tick)
            else
              some ({ m2 with snake := m2.snake.take (m2.snake.length - 1) }, Cmd.tick)
      else some (m1, Cmd.tick)
    | Msg.other => some (m, Cmd.nil)

/-- Feeding a list of messages, each with the entropy for its possible food respawn,
through `Update` in arrival order, as the event loop does. -/
def runMsgs (m : model) : List (Msg × Nat × Nat) → Option model
  | [] => some m
  | (msg, rx, ry) :: rest =>
    match Update m msg rx ry with
    | none => none
    | some (m1, _) => runMsgs m1 rest

/-- A run of timer messages only. -/
def runTicks (m : model) (draws : List (Nat × Nat)) : Option model :=
  runMsgs m (draws.map (fun d => (Msg.time, d.1, d.2)))

/-- The states the program can be in: whatever `initialModel` returns, closed under `Update`
for every message and every entropy. -/
inductive Reachable : model → Prop where
  | init (rx ry : Nat) (m : model) : initialModel rx ry = some m → Reachable m
  | step (m : model) (msg : Msg) (rx ry : Nat) (m1 : model) (c : Cmd) :
      Reachable m → Update m msg rx ry = some (m1, c) → Reachable m1

/-! ## Rendering -/

/-- The four package-level lipgloss styles of the source:
`borderStyle`, `snakeStyle`, `headStyle`, `foodStyle`. -/
inductive Style where
  | border
  | snake
  | head
  | food
  deriving DecidableEq, Repr

/-- The allocation limit of Go's runtime (`maxAlloc` in `runtime/malloc.go`) on the 64-bit
platforms whose heap addresses have 48 bits: 2^48 bytes. -/
def maxAlloc : Int := 281474976710656

/-- Whether `make([]T, len)` returns, for elements of `elemSize` bytes. The runtime's
`makeslice` panics ("len out of range") when `len` is negative or `elemSize * len` exceeds
`maxAlloc`. Running out of physical memory below that limit is a fatal error of the runtime
that depends on the machine; it is outside this embedding. -/
def makeslice (elemSize len : Int) : Bool :=
  decide (0 ≤ len ∧ elemSize * len ≤ maxAlloc)

/-- The board `View` allocates and fills before drawing: `make([][]rune, m.height+2)` (a slice
header has 24 bytes), a `make([]rune, m.width+2)` per row (a rune has 4 bytes), and the
border/blank assignment of every cell. A panic of `make` is `none`. -/
def emptyBoard (m : model) : Option (List (List Char)) :=
  let rows := wrap64 (m.height + 2)
  let cols := wrap64 (m.width + 2)
  if makeslice 24 rows = false then none
  else if 0 < rows ∧ makeslice 4 cols = false then none
  else
    some ((List.range rows.toNat).map (fun (i : Nat) =>
      (List.range cols.toNat).map (fun (j : Nat) =>
        if (i : Int) = 0 ∨ (i : Int) = wrap64 (m.height + 1) then '-'
        else if (j : Int) = 0 ∨ (j : Int) = wrap64 (m.width + 1) then '|'
        else ' ')))

/-- The assignment `board[r][c] = ch`; an index out of range is a panic. -/
def setCell (board : List (List Char)) (r c : Int) (ch : Char) : Option (List (List Char)) :=
  if r < 0 ∨ r ≥ board.length then none
  else
    match board[r.toNat]? with
    | none => none
    | some row =>
      if c < 0 ∨ c ≥ row.length then none
      else some (board.set r.toNat (row.set c.toNat ch))

/-- The loop `for i, p := range m.snake` of `View`, entered at index `i`: the head (index 0)
is drawn as the digit zero, every other segment as the capital letter O. -/
def drawSnake : List (List Char) → Nat → List position → Option (List (List Char))
  | board, _, [] => some board
  | board, i, p :: rest =>
    match setCell board (wrap64 (p.y + 1)) (wrap64 (p.x + 1)) (if i = 0 then '0' else 'O') with
    | none => none
    | some b => drawSnake b (i + 1) rest

/-- The rune grid `View` has built when it starts converting it to text: borders and blanks,
then the snake, then the food. -/
def viewBoard (m : model) : Option (List (List Char)) :=
  match emptyBoard m with
  | none => none
  | some b0 =>
    match drawSnake b0 0 m.snake with
    | none => none
    | some b1 => setCell b1 (wrap64 (m.food.y + 1)) (wrap64 (m.food.x + 1)) 'X'

/-- The `switch cell` of `View`: the text appended for one cell. `render` stands for
lipgloss's `Style.Render`. -/
def cellString (render : Style → String → String) (cell : Char) : String :=
  if cell = '-' then render Style.border (String.singleton cell)
  else if cell = '|' then render Style.border (String.singleton cell)
  else if cell = 'O' then render Style.snake (String.singleton cell)
  else if cell = '0' then render Style.head (String.singleton cell)
  else if cell = 'X' then render Style.food (String.singleton cell)
  else String.singleton cell

/-- The conversion loops of `View`: every cell appended in row-major order, a newline
appended after each row. -/
def boardString (render : Style → String → String) (board : List (List Char)) : String :=
  board.foldl (fun s row => row.foldl (fun t cell => t ++ cellString render cell) s ++ "\n") ""

/-- Source `model.View`. -/
def View (render : Style → String → String) (m : model) : Option String :=
  if m.gameOver then some "Game Over!\nPress q to quit.\n"
  else
    match viewBoard m with
    | none => none
    | some board => some (boardString render board)

/-! ## Vocabulary of the specification -/

/-- A value a Go `int` can hold. -/
def isInt64 (v : Int) : Prop := -9223372036854775808 ≤ v ∧ v < 9223372036854775808

instance (v : Int) : Decidable (isInt64 v) := by unfold isInt64; infer_instance

/-- Every integer field of the state is a Go `int`. -/
def model.wellTyped (m : model) : Prop :=
  (∀ p ∈ m.snake, isInt64 p.x ∧ isInt64 p.y) ∧ isInt64 m.food.x ∧ isInt64 m.food.y ∧
    isInt64 m.width ∧ isInt64 m.height ∧ isInt64 m.tickCount

instance (m : model) : Decidable m.wellTyped := by unfold model.wellTyped; infer_instance

/-- The cell one step from `p` in heading `d`, in the words of the specification:
Up y-1, Down y+1, Left x-1, Right x+1 (unbounded integers). -/
def stepCell (d : direction) (p : position) : position :=
  match d with
  | direction.up => { x := p.x, y := p.y - 1 }
  | direction.down => { x := p.x, y := p.y + 1 }
  | direction.left => { x := p.x - 1, y := p.y }
  | direction.right => { x := p.x + 1, y := p.y }

/-- Membership of a cell in `[0,width) x [0,height)`. -/
def inBoard (m : model) (p : position) : Prop :=
  0 ≤ p.x ∧ p.x < m.width ∧ 0 ≤ p.y ∧ p.y < m.height

instance (m : model) (p : position) : Decidable (inBoard m p) := by unfold inBoard; infer_instance

/-- The reverse of a heading. -/
def reverse (d : direction) : direction :=
  match d with
  | direction.up => direction.down
  | direction.down => direction.up
  | direction.left => direction.right
  | direction.right => direction.left

/-- The direction a movement key asks for: w Up, s Down, a Left, d Right. -/
def keyDirection (s : String) : Option direction :=
  if s = "w" then some direction.up
  else if s = "s" then some direction.down
  else if s = "a" then some direction.left
  else if s = "d" then some direction.right
  else none

/-- The cell of a rune grid at row `r`, column `c`. -/
def cellAt (board : List (List Char)) (r c : Nat) : Option Char :=
  match board[r]? with
  | none => none
  | some row => row[c]?

/-- The text of one rendered row: its cells in order, then a newline. -/
def rowString (render : Style → String → String) (row : List Char) : String :=
  String.join (row.map (cellString render)) ++ "\n"

/-- The visual style tag of a drawn character, in the words of the specification: border for
the two border characters, body, head and food for theirs, none (plain) for anything else. -/
def styleOf (c : Char) : Option Style :=
  if c = '-' ∨ c = '|' then some Style.border
  else if c = 'O' then some Style.snake
  else if c = '0' then some Style.head
  else if c = 'X' then some Style.food
  else none

/-- The text of one cell of the frame: the character itself, rendered in its style if it has
one. -/
def cellText (render : Style → String → String) (c : Char) : String :=
  match styleOf c with
  | some st => render st (String.mk [c])
  | none => String.mk [c]

/-- The grid of a board can be allocated: neither the `height+2` row headers of 24 bytes nor
the `width+2` runes of 4 bytes of a row exceed the allocation limit of `make`. -/
def gridAllocatable (m : model) : Prop :=
  24 * (m.height + 2) ≤ maxAlloc ∧ 4 * (m.width + 2) ≤ maxAlloc

instance (m : model) : Decidable (gridAllocatable m) := by
  unfold gridAllocatable; infer_instance

/-- Grid neighbours: equal in one coordinate, one apart in the other. -/
def neighbours (p q : position) : Prop :=
  (p.x = q.x ∧ (p.y = q.y + 1 ∨ q.y = p.y + 1)) ∨ (p.y = q.y ∧ (p.x = q.x + 1 ∨ q.x = p.x + 1))

instance (p q : position) : Decidable (neighbours p q) := by unfold neighbours; infer_instance

/-- A rune grid of `rows` rows, each of `cols` cells. -/
def hasDims (board : List (List Char)) (rows cols : Nat) : Prop :=
  board.length = rows ∧ ∀ row ∈ board, row.length = cols

/-- The grid cell (row, column) `View` draws a position at: `board[p.y+1][p.x+1]`. -/
def cellOf (p : position) : Nat × Nat := ((wrap64 (p.y + 1)).toNat, (wrap64 (p.x + 1)).toNat)

/-- A rendering of styles that leaves the text as it is (a terminal without colours). -/
def plainRender (_ : Style) (s : String) : String := s

/-! ## Example states -/

/-- Scenario B just before its movement tick: a one-segment snake at (0,5) heading Left on
the 20 x 10 board, tick counter odd. -/
def stateAtLeftWall : model :=
  { snake := [{ x := 0, y := 5 }], direction := direction.left, food := { x := 3, y := 3 },
    width := 20, height := 10, gameOver := false, tickCount := 1 }

/-- Scenario B from the start: the same snake with an even tick counter. -/
def stateAtLeftWallEven : model :=
  { snake := [{ x := 0, y := 5 }], direction := direction.left, food := { x := 3, y := 3 },
    width := 20, height := 10, gameOver := false, tickCount := 0 }

/-- Scenario E: a three-segment snake whose next cell, heading Left, is its own second segment. -/
def stateIntoNeck : model :=
  { snake := [{ x := 5, y := 5 }, { x := 4, y := 5 }, { x := 3, y := 5 }],
    direction := direction.left, food := { x := 0, y := 0 },
    width := 20, height := 10, gameOver := false, tickCount := 3 }

/-- A two-segment snake heading Right into free cells, the food elsewhere. -/
def statePlainMove : model :=
  { snake := [{ x := 10, y := 5 }, { x := 9, y := 5 }], direction := direction.right,
    food := { x := 2, y := 2 }, width := 20, height := 10, gameOver := false, tickCount := 1 }

/-- Scenario C: the food lies exactly on the next head position. -/
def stateBeforeFood : model :=
  { snake := [{ x := 10, y := 5 }, { x := 9, y := 5 }], direction := direction.right,
    food := { x := 11, y := 5 }, width := 20, height := 10, gameOver := false, tickCount := 1 }

/-- A fresh game as `initialModel` makes it, with the food at (3,4). -/
def stateFresh : model :=
  { snake := [{ x := 10, y := 5 }], direction := direction.right, food := { x := 3, y := 4 },
    width := 20, height := 10, gameOver := false, tickCount := 0 }

/-- The fresh game `stateFresh` after two timer messages: the snake has moved one cell. -/
def stateFreshMoved : model :=
  { snake := [{ x := 11, y := 5 }], direction := direction.right, food := { x := 3, y := 4 },
    width := 20, height := 10, gameOver := false, tickCount := 2 }

/-- A finished game: the snake ran into the left wall. -/
def stateOver : model :=
  { snake := [{ x := 0, y := 5 }], direction := direction.left, food := { x := 3, y := 3 },
    width := 20, height := 10, gameOver := true, tickCount := 2 }

/-- Scenario D: a running snake heading Down. -/
def stateHeadingDown : model :=
  { snake := [{ x := 10, y := 5 }, { x := 10, y := 4 }], direction := direction.down,
    food := { x := 2, y := 2 }, width := 20, height := 10, gameOver := false, tickCount := 4 }

/-- A game that started with the food at (11,5), right in front of the snake. -/
def stateFoodAhead : model :=
  { snake := [{ x := 10, y := 5 }], direction := direction.right, food := { x := 11, y := 5 },
    width := 20, height := 10, gameOver := false, tickCount := 0 }

/-- The game `stateFoodAhead` after two timer messages: the snake has eaten and is two cells
long; the new food was drawn at (7,8). -/
def stateFed : model :=
  { snake := [{ x := 11, y := 5 }, { x := 10, y := 5 }], direction := direction.right,
    food := { x := 7, y := 8 }, width := 20, height := 10, gameOver := false, tickCount := 2 }

/-- A game whose first food was drawn at (10,5), the cell of the snake. -/
def stateFoodOnHead : model :=
  { snake := [{ x := 10, y := 5 }], direction := direction.right, food := { x := 10, y := 5 },
    width := 20, height := 10, gameOver := false, tickCount := 0 }

/-- The state `stateBeforeFood` after the snake has eaten and the new food was drawn at (10,5),
under its second segment. -/
def stateFedOnSnake : model :=
  { snake := [{ x := 11, y := 5 }, { x := 10, y := 5 }, { x := 9, y := 5 }],
    direction := direction.right, food := { x := 10, y := 5 },
    width := 20, height := 10, gameOver := false, tickCount := 2 }

/-- The two-segment snake of `stateFed` after the keys w and a, pressed between two movement
ticks: it now heads Left, straight at its own second segment. -/
def stateNeckAhead : model :=
  { snake := [{ x := 11, y := 5 }, { x := 10, y := 5 }], direction := direction.left,
    food := { x := 7, y := 8 }, width := 20, height := 10, gameOver := false, tickCount := 2 }

/-- The state `stateNeckAhead` after its next movement tick: game over. -/
def stateNeckHit : model :=
  { snake := [{ x := 11, y := 5 }, { x := 10, y := 5 }], direction := direction.left,
    food := { x := 7, y := 8 }, width := 20, height := 10, gameOver := true, tickCount := 4 }

/-- A running state on a board 2^46 cells wide and one cell high, snake and food inside it. -/
def stateWideBoard : model :=
  { snake := [{ x := 0, y := 0 }], direction := direction.right, food := { x := 1, y := 0 },
    width := 70368744177664, height := 1, gameOver := false, tickCount := 0 }

/-- A running state on a board 2^63 - 2 cells wide, where `width+2` wraps around. -/
def stateWrapBoard : model :=
  { snake := [{ x := 0, y := 0 }], direction := direction.right, food := { x := 1, y := 0 },
    width := 9223372036854775806, height := 1, gameOver := false, tickCount := 0 }

/-- The 3 x 2 board with a one-segment snake at (1,0) and the food at (0,1). -/
def stateSmallBoard : model :=
  { snake := [{ x := 1, y := 0 }], direction := direction.right, food := { x := 0, y := 1 },
    width := 3, height := 2, gameOver := false, tickCount := 0 }

/-! ## Arithmetic lemmas -/

theorem tmod_two_eq_zero (t : Int) : Int.tmod t 2 = 0 ↔ t % 2 = 0 := by
  constructor
  · intro h
    exact Int.emod_eq_zero_of_dvd (Int.dvd_of_tmod_eq_zero h)
  · intro h
    exact Int.tmod_eq_zero_of_dvd (Int.dvd_of_emod_eq_zero h)

theorem wrap64_succ_even (t : Int) (h : t % 2 = 1) : Int.tmod (wrap64 (t + 1)) 2 = 0 := by
  rw [tmod_two_eq_zero]; unfold wrap64; omega

theorem wrap64_succ_odd (t : Int) (h : t % 2 = 0) : ¬ Int.tmod (wrap64 (t + 1)) 2 = 0 := by
  rw [tmod_two_eq_zero]; unfold wrap64; omega

theorem wrap64_succ_of_even (t : Int) (ht : isInt64 t) (h : t % 2 = 0) : wrap64 (t + 1) = t + 1 := by
  unfold isInt64 at ht; unfold wrap64; omega

/-- On Go integers, the wrapped `newHead` is in the board exactly when the cell one step
ahead is, and then the two are the same cell. -/
theorem newHead_inBoard (m : model) (d : direction) (head : position)
    (hx : isInt64 head.x) (hy : isInt64 head.y) (hw : isInt64 m.width) (hh : isInt64 m.height) :
    (inBoard m (newHead d head) ↔ inBoard m (stepCell d head)) ∧
      (inBoard m (stepCell d head) → newHead d head = stepCell d head) := by
  unfold isInt64 at hx hy hw hh
  cases d <;> simp only [newHead, stepCell, inBoard, wrap64] <;> refine ⟨by omega, ?_⟩ <;>
    intro h <;> congr 1 <;> omega

/-- The value `rand.Intn` returns lies in `[0, n)`, and it returns one whenever `0 < n`. -/
theorem Intn_range (n : Int) (r : Nat) (hn : 0 < n) :
    ∃ v, Intn n r = some v ∧ 0 ≤ v ∧ v < n := by
  refine ⟨(r : Int) % n, ?_, Int.emod_nonneg _ (by omega), Int.emod_lt_of_pos _ hn⟩
  unfold Intn
  rw [if_neg (by omega)]

/-- Every value of `[0, n)` is one `rand.Intn` can return. -/
theorem Intn_onto (n v : Int) (h0 : 0 ≤ v) (hn : v < n) : ∃ r, Intn n r = some v := by
  refine ⟨v.toNat, ?_⟩
  unfold Intn
  rw [if_neg (by omega), Int.toNat_of_nonneg h0, Int.emod_eq_of_lt h0 hn]

/-! ## One movement tick -/

/-- What `Update` does with a timer message on a running state whose tick counter is odd
and whose snake is `head :: tl`: the four exits of the movement branch. -/
theorem Update_movement (m : model) (head : position) (tl : List position) (rx ry : Nat)
    (hrun : m.gameOver = false) (hs : m.snake = head :: tl) (hodd : m.tickCount % 2 = 1) :
    Update m Msg.time rx ry =
      if ¬ inBoard m (newHead m.direction head) then
        some ({ m with tickCount := wrap64 (m.tickCount + 1), gameOver := true }, Cmd.nil)
      else if newHead m.direction head ∈ m.snake then
        some ({ m with tickCount := wrap64 (m.tickCount + 1), gameOver := true }, Cmd.nil)
      else if newHead m.direction head = m.food then
        match Intn m.width rx with
        | none => none
        | some fx =>
          match Intn m.height ry with
          | none => none
          | some fy =>
            some ({ m with tickCount := wrap64 (m.tickCount + 1),
                           snake := newHead m.direction head :: m.snake,
                           food := { x := fx, y := fy } }, Cmd.tick)
      else
        some ({ m with tickCount := wrap64 (m.tickCount + 1),
                       snake := newHead m.direction head :: m.snake.dropLast }, Cmd.tick) := by
  have hev := wrap64_succ_even m.tickCount hodd
  unfold Update
  simp only [hrun, hs, hev, inBoard]
  generalize newHead m.direction head = nh
  have hany : ((head :: tl).any fun p => decide (p = nh)) = true ↔ nh ∈ head :: tl := by
    simp only [List.any_eq_true, decide_eq_true_eq]
    exact ⟨fun ⟨p, hp, e⟩ => e ▸ hp, fun h => ⟨nh, h, rfl⟩⟩
  have hb : (nh.x < 0 ∨ nh.x ≥ m.width ∨ nh.y < 0 ∨ nh.y ≥ m.height) ↔
      ¬ (0 ≤ nh.x ∧ nh.x < m.width ∧ 0 ≤ nh.y ∧ nh.y < m.height) := by omega
  have hd : List.take ((nh :: head :: tl).length - 1) (nh :: head :: tl) = nh :: (head :: tl).dropLast := by
    rw [← List.dropLast_eq_take]; rfl
  simp only [hany, hb, hd, if_true, Bool.false_eq_true, if_false]

/-! ## The other branches of `Update` -/

theorem Update_gameOver (m : model) (msg : Msg) (rx ry : Nat) (h : m.gameOver = true) :
    Update m msg rx ry = some (m, Cmd.nil) := by
  unfold Update
  rw [if_pos h]

theorem Update_other (m : model) (rx ry : Nat) : Update m Msg.other rx ry = some (m, Cmd.nil) := by
  unfold Update
  split <;> rfl

/-- A timer message on a running state with an even tick counter only counts the tick. -/
theorem Update_idle (m : model) (rx ry : Nat) (hrun : m.gameOver = false)
    (heven : m.tickCount % 2 = 0) :
    Update m Msg.time rx ry = some ({ m with tickCount := wrap64 (m.tickCount + 1) }, Cmd.tick) := by
  unfold Update
  simp only [hrun, wrap64_succ_odd m.tickCount heven, Bool.false_eq_true, if_false]

/-- A movement tick on an empty snake is the index-out-of-range panic of `m.snake[0]`. -/
theorem Update_empty (m : model) (rx ry : Nat) (hrun : m.gameOver = false)
    (hs : m.snake = []) (hodd : m.tickCount % 2 = 1) : Update m Msg.time rx ry = none := by
  unfold Update
  simp only [hrun, hs, wrap64_succ_even m.tickCount hodd, Bool.false_eq_true, if_false, if_true]

/-- A key message on a running state: quit, a turn (never onto the reverse heading), or nothing. -/
theorem Update_key (m : model) (s : String) (rx ry : Nat) (hrun : m.gameOver = false) :
    ∃ m1 c, Update m (Msg.key s) rx ry = some (m1, c) ∧
      (m1 = m ∨ ∃ d, d ≠ reverse m.direction ∧ m1 = { m with direction := d }) := by
  unfold Update
  simp only [hrun, Bool.false_eq_true, if_false]
  by_cases hq : s = "ctrl+c" ∨ s = "q"
  · rw [if_pos hq]; exact ⟨_, _, rfl, Or.inl rfl⟩
  rw [if_neg hq]
  by_cases hw : s = "w"
  · rw [if_pos hw]
    by_cases hd : m.direction = direction.down
    · exact ⟨_, _, rfl, Or.inl (by simp [hd])⟩
    · refine ⟨_, _, rfl, Or.inr ⟨direction.up, ?_, by simp [hd]⟩⟩
      revert hd; cases m.direction <;> simp [reverse]
  rw [if_neg hw]
  by_cases hs : s = "s"
  · rw [if_pos hs]
    by_cases hd : m.direction = direction.up
    · exact ⟨_, _, rfl, Or.inl (by simp [hd])⟩
    · refine ⟨_, _, rfl, Or.inr ⟨direction.down, ?_, by simp [hd]⟩⟩
      revert hd; cases m.direction <;> simp [reverse]
  rw [if_neg hs]
  by_cases ha : s = "a"
  · rw [if_pos ha]
    by_cases hd : m.direction = direction.right
    · exact ⟨_, _, rfl, Or.inl (by simp [hd])⟩
    · refine ⟨_, _, rfl, Or.inr ⟨direction.left, ?_, by simp [hd]⟩⟩
      revert hd; cases m.direction <;> simp [reverse]
  rw [if_neg ha]
  by_cases hdk : s = "d"
  · rw [if_pos hdk]
    by_cases hd : m.direction = direction.left
    · exact ⟨_, _, rfl, Or.inl (by simp [hd])⟩
    · refine ⟨_, _, rfl, Or.inr ⟨direction.right, ?_, by simp [hd]⟩⟩
      revert hd; cases m.direction <;> simp [reverse]
  rw [if_neg hdk]
  exact ⟨_, _, rfl, Or.inl rfl⟩

/-- Every way `Update` can take a state `m` to a state `m1`. -/
theorem Update_cases (m m1 : model) (c : Cmd) (msg : Msg) (rx ry : Nat)
    (h : Update m msg rx ry = some (m1, c)) :
    (m1 = m ∧ (m.gameOver = true ∨ msg ≠ Msg.time)) ∨
    (m.gameOver = false ∧ msg ≠ Msg.time ∧
      ∃ d, d ≠ reverse m.direction ∧ m1 = { m with direction := d }) ∨
    (m.gameOver = false ∧ m.tickCount % 2 = 0 ∧
      m1 = { m with tickCount := wrap64 (m.tickCount + 1) }) ∨
    (m.gameOver = false ∧ m.tickCount % 2 = 1 ∧
      m1 = { m with tickCount := wrap64 (m.tickCount + 1), gameOver := true }) ∨
    (m.gameOver = false ∧ m.tickCount % 2 = 1 ∧ ∃ head tl fx fy, m.snake = head :: tl ∧
      inBoard m (newHead m.direction head) ∧ newHead m.direction head ∉ m.snake ∧
      newHead m.direction head = m.food ∧
      0 ≤ fx ∧ fx < m.width ∧ 0 ≤ fy ∧ fy < m.height ∧
      m1 = { m with tickCount := wrap64 (m.tickCount + 1),
                    snake := newHead m.direction head :: m.snake,
                    food := { x := fx, y := fy } }) ∨
    (m.gameOver = false ∧ m.tickCount % 2 = 1 ∧ ∃ head tl, m.snake = head :: tl ∧
      inBoard m (newHead m.direction head) ∧ newHead m.direction head ∉ m.snake ∧
      newHead m.direction head ≠ m.food ∧
      m1 = { m with tickCount := wrap64 (m.tickCount + 1),
                    snake := newHead m.direction head :: m.snake.dropLast }) := by
  rcases Bool.eq_false_or_eq_true m.gameOver with hgo | hgo
  · rw [Update_gameOver m msg rx ry hgo] at h
    left; simp only [Option.some.injEq, Prod.mk.injEq] at h; exact ⟨h.1.symm, Or.inl hgo⟩
  cases msg with
  | other =>
    rw [Update_other] at h
    left; simp only [Option.some.injEq, Prod.mk.injEq] at h
    exact ⟨h.1.symm, Or.inr (by simp)⟩
  | key s =>
    obtain ⟨k, ck, hk, hcase⟩ := Update_key m s rx ry hgo
    rw [hk] at h
    simp only [Option.some.injEq, Prod.mk.injEq] at h
    rw [← h.1]
    rcases hcase with hcase | hcase
    · exact Or.inl ⟨hcase, Or.inr (by simp)⟩
    · exact Or.inr (Or.inl ⟨hgo, by simp, hcase⟩)
  | time =>
    rcases Int.emod_two_eq m.tickCount with heven | hodd
    · rw [Update_idle m rx ry hgo heven] at h
      simp only [Option.some.injEq, Prod.mk.injEq] at h
      exact Or.inr (Or.inr (Or.inl ⟨hgo, heven, h.1.symm⟩))
    by_cases hs : m.snake = []
    · rw [Update_empty m rx ry hgo hs hodd] at h; exact absurd h (by simp)
    obtain ⟨head, tl, hs⟩ := List.exists_cons_of_ne_nil hs
    rw [Update_movement m head tl rx ry hgo hs hodd] at h
    by_cases hin : inBoard m (newHead m.direction head)
    · rw [if_neg (not_not.mpr hin)] at h
      by_cases hmem : newHead m.direction head ∈ m.snake
      · rw [if_pos hmem] at h
        simp only [Option.some.injEq, Prod.mk.injEq] at h
        exact Or.inr (Or.inr (Or.inr (Or.inl ⟨hgo, hodd, h.1.symm⟩)))
      · rw [if_neg hmem] at h
        by_cases hfood : newHead m.direction head = m.food
        · rw [if_pos hfood] at h
          have hw : 0 < m.width := by unfold inBoard at hin; omega
          have hh : 0 < m.height := by unfold inBoard at hin; omega
          obtain ⟨fx, hfx, hx0, hx1⟩ := Intn_range m.width rx hw
          obtain ⟨fy, hfy, hy0, hy1⟩ := Intn_range m.height ry hh
          rw [hfx, hfy] at h
          simp only [Option.some.injEq, Prod.mk.injEq] at h
          exact Or.inr (Or.inr (Or.inr (Or.inr (Or.inl ⟨hgo, hodd, head, tl, fx, fy, hs,
            hin, hmem, hfood, hx0, hx1, hy0, hy1, h.1.symm⟩))))
        · rw [if_neg hfood] at h
          simp only [Option.some.injEq, Prod.mk.injEq] at h
          exact Or.inr (Or.inr (Or.inr (Or.inr (Or.inr ⟨hgo, hodd, head, tl, hs,
            hin, hmem, hfood, h.1.symm⟩))))
    · rw [if_pos hin] at h
      simp only [Option.some.injEq, Prod.mk.injEq] at h
      exact Or.inr (Or.inr (Or.inr (Or.inl ⟨hgo, hodd, h.1.symm⟩)))

/-! ## Runs -/

theorem runMsgs_append (l1 l2 : List (Msg × Nat × Nat)) :
    ∀ m : model, runMsgs m (l1 ++ l2) = (runMsgs m l1).bind (fun s => runMsgs s l2) := by
  induction l1 with
  | nil => intro m; rfl
  | cons a l ih =>
    intro m
    obtain ⟨msg, rx, ry⟩ := a
    simp only [List.cons_append, runMsgs]
    cases Update m msg rx ry with
    | none => rfl
    | some r => exact ih r.1

theorem runMsgs_gameOver (l : List (Msg × Nat × Nat)) (m : model) (h : m.gameOver = true) :
    runMsgs m l = some m := by
  induction l with
  | nil => rfl
  | cons a l ih =>
    obtain ⟨msg, rx, ry⟩ := a
    simp only [runMsgs, Update_gameOver m msg rx ry h]
    exact ih

/-- A timer message flips the parity of the tick counter of a running state. -/
theorem Update_time_parity (m m1 : model) (c : Cmd) (rx ry : Nat)
    (h : Update m Msg.time rx ry = some (m1, c)) :
    m1 = m ∧ m.gameOver = true ∨ m1.tickCount % 2 = (m.tickCount + 1) % 2 := by
  have hw : wrap64 (m.tickCount + 1) % 2 = (m.tickCount + 1) % 2 := by unfold wrap64; omega
  rcases Update_cases m m1 c Msg.time rx ry h with h1 | h1 | h1 | h1 | h1 | h1
  · rcases h1 with ⟨e, g | g⟩
    · exact Or.inl ⟨e, g⟩
    · exact absurd rfl g
  · exact absurd rfl h1.2.1
  · right; rw [h1.2.2]; exact hw
  · right; rw [h1.2.2]; exact hw
  · obtain ⟨-, -, head, tl, fx, fy, -, -, -, -, -, -, -, -, e⟩ := h1
    right; rw [e]; exact hw
  · obtain ⟨-, -, head, tl, -, -, -, -, e⟩ := h1
    right; rw [e]; exact hw

theorem runTicks_parity (draws : List (Nat × Nat)) :
    ∀ m s : model, runTicks m draws = some s →
      s.gameOver = true ∨ s.tickCount % 2 = (m.tickCount + draws.length) % 2 := by
  induction draws with
  | nil =>
    intro m s h
    simp only [runTicks, List.map_nil, runMsgs, Option.some.injEq] at h
    right; rw [h]; simp
  | cons d ds ih =>
    intro m s h
    simp only [runTicks, List.map_cons, runMsgs] at h
    cases hu : Update m Msg.time d.1 d.2 with
    | none => rw [hu] at h; exact absurd h (by simp)
    | some r =>
      obtain ⟨m1, c⟩ := r
      rw [hu] at h
      change runTicks m1 ds = some s at h
      rcases Update_time_parity m m1 c d.1 d.2 hu with ⟨e, g⟩ | hp
      · rw [e] at h
        unfold runTicks at h
        rw [runMsgs_gameOver _ m g] at h
        simp only [Option.some.injEq] at h
        left; rw [← h]; exact g
      · rcases ih m1 s h with g | hq
        · exact Or.inl g
        · right; rw [hq]; simp only [List.length_cons]; push_cast; omega

/-! ## The four exits of a movement tick -/

/-- C1. Wall collision: on a running state with snake `head :: tl` and an odd tick counter, if
the cell one step from the head in the current heading is outside `[0,width) x [0,height)`,
a timer message yields a state with `gameOver = true` and the same snake, food and heading
(and no further command). In particular a running one-segment snake at (0,5) heading Left with
an even tick counter is game over after two timer messages. -/
theorem wall_collision :
    (∀ (m : model) (head : position) (tl : List position) (rx ry : Nat),
      m.wellTyped → m.gameOver = false → m.snake = head :: tl → m.tickCount % 2 = 1 →
      ¬ inBoard m (stepCell m.direction head) →
      ∃ m1, Update m Msg.time rx ry = some (m1, Cmd.nil) ∧ m1.gameOver = true ∧
        m1.snake = m.snake ∧ m1.food = m.food ∧ m1.direction = m.direction) ∧
    (∀ (m : model) (rx ry rx2 ry2 : Nat),
      m.gameOver = false → m.tickCount % 2 = 0 → m.snake = [{ x := 0, y := 5 }] →
      m.direction = direction.left →
      ∃ m1 c1 m2 c2, Update m Msg.time rx ry = some (m1, c1) ∧
        Update m1 Msg.time rx2 ry2 = some (m2, c2) ∧ m2.gameOver = true) := by
  constructor
  · intro m head tl rx ry hok hrun hs hodd hout
    have hhead := hok.1 head (by rw [hs]; exact List.mem_cons_self _ _)
    have hnb := (newHead_inBoard m m.direction head hhead.1 hhead.2 hok.2.2.2.1 hok.2.2.2.2.1).1
    rw [Update_movement m head tl rx ry hrun hs hodd, if_pos (fun h => hout (hnb.mp h))]
    exact ⟨_, rfl, rfl, rfl, rfl, rfl⟩
  · intro m rx ry rx2 ry2 hrun heven hs hdir
    have h1 : Update m Msg.time rx ry =
        some ({ m with tickCount := wrap64 (m.tickCount + 1) }, Cmd.tick) := by
      unfold Update
      simp only [hrun, wrap64_succ_odd m.tickCount heven, Bool.false_eq_true, if_false]
    have hodd : (wrap64 (m.tickCount + 1)) % 2 = 1 := by unfold wrap64; omega
    have key : ∀ k : model, k.gameOver = false → k.snake = [{ x := 0, y := 5 }] →
        k.direction = direction.left → k.tickCount % 2 = 1 →
        Update k Msg.time rx2 ry2 =
          some ({ k with tickCount := wrap64 (k.tickCount + 1), gameOver := true }, Cmd.nil) := by
      intro k hk1 hk2 hk3 hk4
      have hout : ¬ inBoard k (newHead k.direction { x := 0, y := 5 }) := by
        simp [hk3, inBoard, newHead, wrap64]
      rw [Update_movement k { x := 0, y := 5 } [] rx2 ry2 hk1 hk2 hk4, if_pos hout]
    have h2 := key { m with tickCount := wrap64 (m.tickCount + 1) } hrun hs hdir hodd
    exact ⟨_, _, _, _, h1, h2, rfl⟩

/-- C1, at Scenario B: both halves of `wall_collision` on the 20 x 10 board. -/
theorem wall_collision_witness :
    (∃ m1, Update stateAtLeftWall Msg.time 0 0 = some (m1, Cmd.nil) ∧ m1.gameOver = true ∧
        m1.snake = stateAtLeftWall.snake ∧ m1.food = stateAtLeftWall.food ∧
        m1.direction = stateAtLeftWall.direction) ∧
    (∃ m1 c1 m2 c2, Update stateAtLeftWallEven Msg.time 0 0 = some (m1, c1) ∧
        Update m1 Msg.time 0 0 = some (m2, c2) ∧ m2.gameOver = true) :=
  ⟨wall_collision.1 stateAtLeftWall { x := 0, y := 5 } [] 0 0 (by decide) rfl rfl (by decide)
      (by decide),
   wall_collision.2 stateAtLeftWallEven 0 0 0 0 rfl (by decide) rfl rfl⟩

/-- C2. Self collision: on a running state with snake `head :: tl` and an odd tick counter, if
the cell one step from the head in the current heading is inside the board and is a segment of
the current snake (any segment, the last one included), a timer message yields a state with
`gameOver = true` and the same snake, food and heading. -/
theorem self_collision (m : model) (head : position) (tl : List position) (rx ry : Nat)
    (hok : m.wellTyped) (hrun : m.gameOver = false) (hs : m.snake = head :: tl)
    (hodd : m.tickCount % 2 = 1) (hin : inBoard m (stepCell m.direction head))
    (hmem : stepCell m.direction head ∈ m.snake) :
    ∃ m1, Update m Msg.time rx ry = some (m1, Cmd.nil) ∧ m1.gameOver = true ∧
      m1.snake = m.snake ∧ m1.food = m.food ∧ m1.direction = m.direction := by
  have hhead := hok.1 head (by rw [hs]; exact List.mem_cons_self _ _)
  have hnb := newHead_inBoard m m.direction head hhead.1 hhead.2 hok.2.2.2.1 hok.2.2.2.2.1
  have heq := hnb.2 hin
  rw [Update_movement m head tl rx ry hrun hs hodd, heq, if_neg (not_not.mpr hin), if_pos hmem]
  exact ⟨_, rfl, rfl, rfl, rfl, rfl⟩

/-- C2, at Scenario E: a snake of length 3 whose next cell is its own second segment. -/
theorem self_collision_witness :
    stateIntoNeck.snake.length = 3 ∧
    stateIntoNeck.snake.get? 1 = some (stepCell stateIntoNeck.direction { x := 5, y := 5 }) ∧
    ∃ m1, Update stateIntoNeck Msg.time 0 0 = some (m1, Cmd.nil) ∧ m1.gameOver = true ∧
      m1.snake = stateIntoNeck.snake ∧ m1.food = stateIntoNeck.food ∧
      m1.direction = stateIntoNeck.direction :=
  ⟨rfl, rfl, self_collision stateIntoNeck { x := 5, y := 5 } [{ x := 4, y := 5 }, { x := 3, y := 5 }]
    0 0 (by decide) rfl rfl (by decide) (by decide) (by decide)⟩

/-- C3. Plain move: on a running state with snake `head :: tl` and an odd tick counter, if the
new head (Up y-1, Down y+1, Left x-1, Right x+1) is inside the board, is no segment of the snake
and is not the food, a timer message yields a running state whose snake is the new head followed
by the old snake without its last segment (same length), with food and heading unchanged. -/
theorem plain_move (m : model) (head : position) (tl : List position) (rx ry : Nat)
    (hok : m.wellTyped) (hrun : m.gameOver = false) (hs : m.snake = head :: tl)
    (hodd : m.tickCount % 2 = 1) (hin : inBoard m (stepCell m.direction head))
    (hfree : stepCell m.direction head ∉ m.snake) (hfood : stepCell m.direction head ≠ m.food) :
    ∃ m1, Update m Msg.time rx ry = some (m1, Cmd.tick) ∧ m1.gameOver = false ∧
      m1.snake = stepCell m.direction head :: m.snake.dropLast ∧
      m1.snake.length = m.snake.length ∧ m1.food = m.food ∧ m1.direction = m.direction := by
  have hhead := hok.1 head (by rw [hs]; exact List.mem_cons_self _ _)
  have hnb := newHead_inBoard m m.direction head hhead.1 hhead.2 hok.2.2.2.1 hok.2.2.2.2.1
  have heq := hnb.2 hin
  rw [Update_movement m head tl rx ry hrun hs hodd, heq, if_neg (not_not.mpr hin), if_neg hfree,
    if_neg hfood]
  refine ⟨_, rfl, hrun, rfl, ?_, rfl, rfl⟩
  simp [hs]

/-- C3, on a two-segment snake heading Right: (10,5),(9,5) becomes (11,5),(10,5). -/
theorem plain_move_witness :
    ∃ m1, Update statePlainMove Msg.time 0 0 = some (m1, Cmd.tick) ∧ m1.gameOver = false ∧
      m1.snake = stepCell statePlainMove.direction { x := 10, y := 5 } ::
        statePlainMove.snake.dropLast ∧
      m1.snake.length = statePlainMove.snake.length ∧ m1.food = statePlainMove.food ∧
      m1.direction = statePlainMove.direction :=
  plain_move statePlainMove { x := 10, y := 5 } [{ x := 9, y := 5 }] 0 0 (by decide) rfl rfl
    (by decide) (by decide) (by decide) (by decide)

/-- C4. Eating: on a running state with snake `head :: tl` and an odd tick counter, if the new
head is inside the board (so width, height > 0), is no segment of the snake and is the food
position, a timer message yields, for every random draw, a running state whose snake is the new
head followed by the whole old snake (one longer) and whose new food lies in
`[0,width) x [0,height)`. -/
theorem eating (m : model) (head : position) (tl : List position) (rx ry : Nat)
    (hok : m.wellTyped) (hrun : m.gameOver = false) (hs : m.snake = head :: tl)
    (hodd : m.tickCount % 2 = 1) (hw : 0 < m.width) (hh : 0 < m.height)
    (hin : inBoard m (stepCell m.direction head))
    (hfree : stepCell m.direction head ∉ m.snake) (hfood : stepCell m.direction head = m.food) :
    ∃ m1, Update m Msg.time rx ry = some (m1, Cmd.tick) ∧ m1.gameOver = false ∧
      m1.snake = stepCell m.direction head :: m.snake ∧
      m1.snake.length = m.snake.length + 1 ∧ inBoard m1 m1.food ∧
      m1.width = m.width ∧ m1.height = m.height := by
  have hhead := hok.1 head (by rw [hs]; exact List.mem_cons_self _ _)
  have hnb := newHead_inBoard m m.direction head hhead.1 hhead.2 hok.2.2.2.1 hok.2.2.2.2.1
  have heq := hnb.2 hin
  obtain ⟨fx, hfx, hx0, hx1⟩ := Intn_range m.width rx hw
  obtain ⟨fy, hfy, hy0, hy1⟩ := Intn_range m.height ry hh
  rw [Update_movement m head tl rx ry hrun hs hodd, heq, if_neg (not_not.mpr hin), if_neg hfree,
    if_pos hfood, hfx, hfy]
  exact ⟨_, rfl, hrun, rfl, rfl, ⟨hx0, hx1, hy0, hy1⟩, rfl, rfl⟩

/-- C4, at Scenario C: the food at (11,5) is eaten by the snake (10,5),(9,5) heading Right. -/
theorem eating_witness :
    ∃ m1, Update stateBeforeFood Msg.time 7 8 = some (m1, Cmd.tick) ∧ m1.gameOver = false ∧
      m1.snake = stepCell stateBeforeFood.direction { x := 10, y := 5 } :: stateBeforeFood.snake ∧
      m1.snake.length = stateBeforeFood.snake.length + 1 ∧ inBoard m1 m1.food ∧
      m1.width = stateBeforeFood.width ∧ m1.height = stateBeforeFood.height :=
  eating stateBeforeFood { x := 10, y := 5 } [{ x := 9, y := 5 }] 7 8 (by decide) rfl rfl
    (by decide) (by decide) (by decide) (by decide) (by decide) (by decide)

/-! ## Cadence, termination and direction input -/

/-- C5. Movement cadence: on a running state with an even tick counter a timer message changes
nothing but the tick counter, which grows by one. Hence, from tick counter 0 and under timer
messages only, an odd-numbered timer message (one that follows an even number of them) leaves the
snake, and so the head position, as it was: the head can move on the 2nd, 4th, 6th, ... only. -/
theorem movement_cadence :
    (∀ (m : model) (rx ry : Nat), isInt64 m.tickCount → m.gameOver = false →
      m.tickCount % 2 = 0 →
      Update m Msg.time rx ry = some ({ m with tickCount := m.tickCount + 1 }, Cmd.tick)) ∧
    (∀ (m s : model) (draws : List (Nat × Nat)) (d : Nat × Nat), m.tickCount = 0 →
      draws.length % 2 = 0 → runTicks m draws = some s →
      ∃ s1, runTicks m (draws ++ [d]) = some s1 ∧ s1.snake = s.snake ∧
        s1.snake.head? = s.snake.head?) := by
  constructor
  · intro m rx ry ht hrun heven
    rw [Update_idle m rx ry hrun heven, wrap64_succ_of_even m.tickCount ht heven]
  · intro m s draws d h0 hlen hrun
    have happ : runTicks m (draws ++ [d]) = runMsgs s [(Msg.time, d.1, d.2)] := by
      unfold runTicks at hrun ⊢
      rw [List.map_append, runMsgs_append, hrun]
      rfl
    rw [happ]
    rcases Bool.eq_false_or_eq_true s.gameOver with hgo | hgo
    · exact ⟨s, runMsgs_gameOver _ s hgo, rfl, rfl⟩
    · have hpar : s.tickCount % 2 = 0 := by
        rcases runTicks_parity draws m s hrun with g | hp
        · rw [hgo] at g; exact absurd g (by simp)
        · rw [hp, h0]; omega
      refine ⟨{ s with tickCount := wrap64 (s.tickCount + 1) }, ?_, rfl, rfl⟩
      simp only [runMsgs, Update_idle s d.1 d.2 hgo hpar]

/-- C5, on the fresh game: the first timer message only counts, and the third one (after the
move made by the second) leaves the snake where it is. -/
theorem movement_cadence_witness :
    Update stateFresh Msg.time 0 0 =
      some ({ stateFresh with tickCount := stateFresh.tickCount + 1 }, Cmd.tick) ∧
    ∃ s1, runTicks stateFresh ([(0, 0), (0, 0)] ++ [(0, 0)]) = some s1 ∧
      s1.snake = stateFreshMoved.snake ∧ s1.snake.head? = stateFreshMoved.snake.head? :=
  ⟨movement_cadence.1 stateFresh 0 0 (by decide) rfl (by decide),
   movement_cadence.2 stateFresh stateFreshMoved [(0, 0), (0, 0)] (0, 0) rfl (by decide)
     (by decide)⟩

/-- C6. GameOver is absorbing: on a state with `gameOver = true`, `Update` returns the very same
state (tick counter included) for every message, and so does every finite sequence of messages. -/
theorem gameOver_absorbing (m : model) (h : m.gameOver = true) :
    (∀ (msg : Msg) (rx ry : Nat), Update m msg rx ry = some (m, Cmd.nil)) ∧
    (∀ msgs : List (Msg × Nat × Nat), runMsgs m msgs = some m) :=
  ⟨fun msg rx ry => Update_gameOver m msg rx ry h, fun msgs => runMsgs_gameOver msgs m h⟩

/-- C6, on a finished game: a timer message, and a mix of timer messages and keys. -/
theorem gameOver_absorbing_witness :
    Update stateOver Msg.time 0 0 = some (stateOver, Cmd.nil) ∧
    runMsgs stateOver [(Msg.time, 0, 0), (Msg.key "d", 0, 0), (Msg.time, 1, 1), (Msg.other, 0, 0)]
      = some stateOver :=
  ⟨(gameOver_absorbing stateOver rfl).1 Msg.time 0 0,
   (gameOver_absorbing stateOver rfl).2
     [(Msg.time, 0, 0), (Msg.key "d", 0, 0), (Msg.time, 1, 1), (Msg.other, 0, 0)]⟩

/-- C7. Blocked reversal: in every state, the key asking for the exact reverse of the current
heading (w while heading Down, s while heading Up, a while heading Right, d while heading Left)
returns the state unchanged in every field. -/
theorem blocked_reversal (m : model) (rx ry : Nat) :
    (m.direction = direction.down → Update m (Msg.key "w") rx ry = some (m, Cmd.nil)) ∧
    (m.direction = direction.up → Update m (Msg.key "s") rx ry = some (m, Cmd.nil)) ∧
    (m.direction = direction.right → Update m (Msg.key "a") rx ry = some (m, Cmd.nil)) ∧
    (m.direction = direction.left → Update m (Msg.key "d") rx ry = some (m, Cmd.nil)) := by
  rcases Bool.eq_false_or_eq_true m.gameOver with hgo | hgo
  · have h := fun s => Update_gameOver m (Msg.key s) rx ry hgo
    exact ⟨fun _ => h _, fun _ => h _, fun _ => h _, fun _ => h _⟩
  · refine ⟨?_, ?_, ?_, ?_⟩ <;> intro hd <;> unfold Update <;>
      simp +decide [hgo, hd]

/-- C7, at Scenario D: Up requested while heading Down leaves the heading Down. -/
theorem blocked_reversal_witness :
    Update stateHeadingDown (Msg.key "w") 0 0 = some (stateHeadingDown, Cmd.nil) ∧
    stateHeadingDown.direction = direction.down :=
  ⟨(blocked_reversal stateHeadingDown 0 0).1 rfl, rfl⟩

/-- C8. Direction input changes only the heading: on a running state, a direction key
(w, s, a, d) whose direction is not the reverse of the current heading sets the heading to that
direction and leaves snake, food, tick counter, gameOver flag, width and height as they are; a key
that is none of w, s, a, d, q, ctrl+c returns the state unchanged. -/
theorem direction_input_frame :
    (∀ (m : model) (s : String) (d : direction) (rx ry : Nat), m.gameOver = false →
      keyDirection s = some d → d ≠ reverse m.direction →
      ∃ m1, Update m (Msg.key s) rx ry = some (m1, Cmd.nil) ∧ m1.direction = d ∧
        m1.snake = m.snake ∧ m1.food = m.food ∧ m1.tickCount = m.tickCount ∧
        m1.gameOver = m.gameOver ∧ m1.width = m.width ∧ m1.height = m.height) ∧
    (∀ (m : model) (s : String) (rx ry : Nat), s ≠ "w" → s ≠ "s" → s ≠ "a" → s ≠ "d" →
      s ≠ "q" → s ≠ "ctrl+c" → Update m (Msg.key s) rx ry = some (m, Cmd.nil)) := by
  constructor
  · intro m s d rx ry hgo hk hrev
    unfold keyDirection at hk
    split_ifs at hk with h1 h2 h3 h4 <;> simp only [Option.some.injEq] at hk <;> subst hk <;>
      subst s <;> refine ⟨{ m with direction := _ }, ?_, rfl, rfl, rfl, rfl, rfl, rfl, rfl⟩ <;>
      unfold Update <;> revert hrev <;> cases hd : m.direction <;>
      simp +decide [hgo, hd, reverse]
  · intro m s rx ry hw hs ha hd hq hc
    unfold Update
    simp [hw, hs, ha, hd, hq, hc]

/-- C8, on a snake heading Right: w turns it Up; an unbound key does nothing. -/
theorem direction_input_frame_witness :
    (∃ m1, Update statePlainMove (Msg.key "w") 0 0 = some (m1, Cmd.nil) ∧
        m1.direction = direction.up ∧
        m1.snake = statePlainMove.snake ∧ m1.food = statePlainMove.food ∧
        m1.tickCount = statePlainMove.tickCount ∧ m1.gameOver = statePlainMove.gameOver ∧
        m1.width = statePlainMove.width ∧ m1.height = statePlainMove.height) ∧
    Update statePlainMove (Msg.key "x") 0 0 = some (statePlainMove, Cmd.nil) :=
  ⟨direction_input_frame.1 statePlainMove "w" direction.up 0 0 rfl (by decide) (by decide),
   direction_input_frame.2 statePlainMove "x" 0 0 (by decide) (by decide) (by decide) (by decide)
     (by decide) (by decide)⟩

/-! ## Invariants of the reachable states -/

/-- What `initialModel` returns: the 20 x 10 board, the snake at its centre, the food anywhere. -/
theorem initialModel_eq (rx ry : Nat) :
    initialModel rx ry =
      some { snake := [{ x := 10, y := 5 }], direction := direction.right,
             food := { x := (rx : Int) % 20, y := (ry : Int) % 10 },
             width := 20, height := 10, gameOver := false, tickCount := 0 } := by
  unfold initialModel Intn
  rfl

theorem stateFreshMoved_reachable : Reachable stateFreshMoved :=
  Reachable.step { stateFresh with tickCount := 1 } Msg.time 0 0 stateFreshMoved Cmd.tick
    (Reachable.step stateFresh Msg.time 0 0 { stateFresh with tickCount := 1 } Cmd.tick
      (Reachable.init 3 4 stateFresh (by decide)) (by decide))
    (by decide)

theorem stateFed_reachable : Reachable stateFed :=
  Reachable.step { stateFoodAhead with tickCount := 1 } Msg.time 7 8 stateFed Cmd.tick
    (Reachable.step stateFoodAhead Msg.time 0 0 { stateFoodAhead with tickCount := 1 } Cmd.tick
      (Reachable.init 11 5 stateFoodAhead (by decide)) (by decide))
    (by decide)

/-- Dropping the last element keeps membership within the original list. -/
theorem mem_of_mem_dropLast {α : Type} (l : List α) (a : α) (h : a ∈ l.dropLast) : a ∈ l :=
  (List.dropLast_sublist l).subset h

/-- The in-bounds property is kept by every step of `Update`. -/
theorem Update_keeps_inBoard (m m1 : model) (c : Cmd) (msg : Msg) (rx ry : Nat)
    (h : Update m msg rx ry = some (m1, c))
    (hinv : (∀ p ∈ m.snake, inBoard m p) ∧ inBoard m m.food) :
    (∀ p ∈ m1.snake, inBoard m1 p) ∧ inBoard m1 m1.food := by
  rcases Update_cases m m1 c msg rx ry h with h1 | h1 | h1 | h1 | h1 | h1
  · rw [h1.1]; exact hinv
  · obtain ⟨-, -, d, -, e⟩ := h1
    rw [e]; exact hinv
  · rw [h1.2.2]; exact hinv
  · rw [h1.2.2]; exact hinv
  · obtain ⟨-, -, head, tl, fx, fy, -, hin, -, -, hx0, hx1, hy0, hy1, e⟩ := h1
    rw [e]
    refine ⟨?_, ⟨hx0, hx1, hy0, hy1⟩⟩
    intro p hp
    rcases List.mem_cons.mp hp with hp | hp
    · rw [hp]; exact hin
    · exact hinv.1 p hp
  · obtain ⟨-, -, head, tl, -, hin, -, -, e⟩ := h1
    rw [e]
    refine ⟨?_, hinv.2⟩
    intro p hp
    rcases List.mem_cons.mp hp with hp | hp
    · rw [hp]; exact hin
    · exact hinv.1 p (mem_of_mem_dropLast _ _ hp)

/-- Pairwise distinctness of the snake is kept by every step of `Update`. -/
theorem Update_keeps_nodup (m m1 : model) (c : Cmd) (msg : Msg) (rx ry : Nat)
    (h : Update m msg rx ry = some (m1, c)) (hinv : m.snake.Nodup) : m1.snake.Nodup := by
  rcases Update_cases m m1 c msg rx ry h with h1 | h1 | h1 | h1 | h1 | h1
  · rw [h1.1]; exact hinv
  · obtain ⟨-, -, d, -, e⟩ := h1
    rw [e]; exact hinv
  · rw [h1.2.2]; exact hinv
  · rw [h1.2.2]; exact hinv
  · obtain ⟨-, -, head, tl, fx, fy, -, -, hfree, -, -, -, -, -, e⟩ := h1
    rw [e]
    exact List.nodup_cons.mpr ⟨hfree, hinv⟩
  · obtain ⟨-, -, head, tl, -, -, hfree, -, e⟩ := h1
    rw [e]
    exact List.nodup_cons.mpr
      ⟨fun hp => hfree (mem_of_mem_dropLast _ _ hp), hinv.sublist (List.dropLast_sublist _)⟩

theorem Reachable_nodup (m : model) (h : Reachable m) : m.snake.Nodup := by
  induction h with
  | init rx ry m h0 =>
    rw [initialModel_eq] at h0
    simp only [Option.some.injEq] at h0
    rw [← h0]
    exact List.nodup_singleton _
  | step m msg rx ry m1 c _ hu ih => exact Update_keeps_nodup m m1 c msg rx ry hu ih

/-- C9. In-bounds invariant: in every reachable state every snake segment (x, y) satisfies
`0 <= x < width` and `0 <= y < height`, and so does the food position. -/
theorem in_bounds_invariant (m : model) (h : Reachable m) :
    (∀ p ∈ m.snake, 0 ≤ p.x ∧ p.x < m.width ∧ 0 ≤ p.y ∧ p.y < m.height) ∧
    (0 ≤ m.food.x ∧ m.food.x < m.width ∧ 0 ≤ m.food.y ∧ m.food.y < m.height) := by
  induction h with
  | init rx ry m h0 =>
    rw [initialModel_eq] at h0
    simp only [Option.some.injEq] at h0
    rw [← h0]
    refine ⟨?_, ?_⟩
    · intro p hp
      rw [List.mem_singleton.mp hp]
      simp only
      omega
    · simp only
      omega
  | step m msg rx ry m1 c _ hu ih => exact Update_keeps_inBoard m m1 c msg rx ry hu ih

/-- C9, on the fresh game after its first move. -/
theorem in_bounds_invariant_witness :
    (∀ p ∈ stateFreshMoved.snake,
      0 ≤ p.x ∧ p.x < stateFreshMoved.width ∧ 0 ≤ p.y ∧ p.y < stateFreshMoved.height) ∧
    (0 ≤ stateFreshMoved.food.x ∧ stateFreshMoved.food.x < stateFreshMoved.width ∧
      0 ≤ stateFreshMoved.food.y ∧ stateFreshMoved.food.y < stateFreshMoved.height) :=
  in_bounds_invariant stateFreshMoved stateFreshMoved_reachable

/-- C10. No self-overlap invariant: in every reachable state with `gameOver = false` the
positions in `snake` are pairwise distinct. (A collision leaves the snake as it was, so the
snake of a finished game is overlap-free as well and the proof does not need the flag.) -/
theorem no_self_overlap (m : model) (h : Reachable m) (_hrun : m.gameOver = false) :
    m.snake.Pairwise (fun p q => p ≠ q) :=
  Reachable_nodup m h

/-- C10, on the two-segment snake that has just eaten. -/
theorem no_self_overlap_witness : stateFed.snake.Pairwise (fun p q => p ≠ q) :=
  no_self_overlap stateFed stateFed_reachable rfl

/-- Reachability is closed under runs of messages. -/
theorem Reachable_runMsgs (l : List (Msg × Nat × Nat)) :
    ∀ m s : model, Reachable m → runMsgs m l = some s → Reachable s := by
  induction l with
  | nil =>
    intro m s hm h
    simp only [runMsgs, Option.some.injEq] at h
    rw [← h]; exact hm
  | cons a l ih =>
    intro m s hm h
    obtain ⟨msg, rx, ry⟩ := a
    simp only [runMsgs] at h
    cases hu : Update m msg rx ry with
    | none => rw [hu] at h; exact absurd h (by simp)
    | some r =>
      obtain ⟨m1, c⟩ := r
      rw [hu] at h
      exact ih m1 s (Reachable.step m msg rx ry m1 c hm hu) h

/-- A step of `Update` never empties a non-empty snake. -/
theorem Update_keeps_nonempty (m m1 : model) (c : Cmd) (msg : Msg) (rx ry : Nat)
    (h : Update m msg rx ry = some (m1, c)) (hinv : m.snake ≠ []) : m1.snake ≠ [] := by
  rcases Update_cases m m1 c msg rx ry h with h1 | h1 | h1 | h1 | h1 | h1
  · rw [h1.1]; exact hinv
  · obtain ⟨-, -, d, -, e⟩ := h1
    rw [e]; exact hinv
  · rw [h1.2.2]; exact hinv
  · rw [h1.2.2]; exact hinv
  · obtain ⟨-, -, head, tl, fx, fy, -, -, -, -, -, -, -, -, e⟩ := h1
    rw [e]; exact List.cons_ne_nil _ _
  · obtain ⟨-, -, head, tl, -, -, -, -, e⟩ := h1
    rw [e]; exact List.cons_ne_nil _ _

theorem Reachable_nonempty (m : model) (h : Reachable m) : m.snake ≠ [] := by
  induction h with
  | init rx ry m h0 =>
    rw [initialModel_eq] at h0
    simp only [Option.some.injEq] at h0
    rw [← h0]
    exact List.cons_ne_nil _ _
  | step m msg rx ry m1 c _ hu ih => exact Update_keeps_nonempty m m1 c msg rx ry hu ih

/-- C11. Non-empty snake invariant: in every reachable state, running or finished, the snake
has at least one segment; and `Update`, given a state with a non-empty snake, never returns a
state with an empty one. -/
theorem snake_nonempty :
    (∀ m : model, Reachable m → 1 ≤ m.snake.length) ∧
    (∀ (m m1 : model) (c : Cmd) (msg : Msg) (rx ry : Nat), m.snake ≠ [] →
      Update m msg rx ry = some (m1, c) → m1.snake ≠ []) :=
  ⟨fun m h => List.length_pos.mpr (Reachable_nonempty m h),
   fun m m1 c msg rx ry hne hu => Update_keeps_nonempty m m1 c msg rx ry hu hne⟩

/-- C11, on the snake that has just eaten, and on the plain move of a two-segment snake. -/
theorem snake_nonempty_witness :
    1 ≤ stateFed.snake.length ∧
    ({ statePlainMove with snake := [{ x := 11, y := 5 }, { x := 10, y := 5 }],
                           tickCount := 2 } : model).snake ≠ [] :=
  ⟨snake_nonempty.1 stateFed stateFed_reachable,
   snake_nonempty.2 statePlainMove _ Cmd.tick Msg.time 0 0 (by decide) (by decide)⟩

/-! ## Food placement -/

/-- C12, refuted: `initialModel` can draw the first food at (10,5), the cell of the snake, and
`Update` can draw the food of a snake that has just eaten at (10,5), under its second segment. -/
theorem food_placed_on_snake :
    initialModel 10 5 = some stateFoodOnHead ∧ stateFoodOnHead.food ∈ stateFoodOnHead.snake ∧
    Update stateBeforeFood Msg.time 10 5 = some (stateFedOnSnake, Cmd.tick) ∧
    stateFedOnSnake.food ∈ stateFedOnSnake.snake := by
  decide

/-- C12, amended. Whenever a food position is placed (by `initialModel`, and by `Update` when
the snake eats on a movement tick), it lies in `[0,width) x [0,height)` for every value of the
random draw; no cell of the board is excluded: every cell, a cell of the snake included, is
placed by some draw. -/
theorem food_placed_in_board :
    (∀ rx ry : Nat, ∃ m, initialModel rx ry = some m ∧ inBoard m m.food) ∧
    (∀ f : position, 0 ≤ f.x ∧ f.x < 20 ∧ 0 ≤ f.y ∧ f.y < 10 →
      ∃ rx ry m, initialModel rx ry = some m ∧ m.food = f) ∧
    (∀ (m : model) (head : position) (tl : List position), m.wellTyped → m.gameOver = false →
      m.snake = head :: tl → m.tickCount % 2 = 1 → inBoard m (stepCell m.direction head) →
      stepCell m.direction head ∉ m.snake → stepCell m.direction head = m.food →
      (∀ rx ry : Nat, ∃ m1, Update m Msg.time rx ry = some (m1, Cmd.tick) ∧
        inBoard m1 m1.food) ∧
      (∀ f : position, inBoard m f →
        ∃ rx ry m1, Update m Msg.time rx ry = some (m1, Cmd.tick) ∧ m1.food = f)) := by
  refine ⟨?_, ?_, ?_⟩
  · intro rx ry
    refine ⟨_, initialModel_eq rx ry, ?_⟩
    simp only [inBoard]
    omega
  · intro f hf
    refine ⟨f.x.toNat, f.y.toNat, _, initialModel_eq _ _, ?_⟩
    cases f with
    | mk fx fy =>
      simp only at hf
      simp only [position.mk.injEq]
      omega
  · intro m head tl hok hrun hs hodd hin hfree hfood
    have hhead := hok.1 head (by rw [hs]; exact List.mem_cons_self _ _)
    have hnb := newHead_inBoard m m.direction head hhead.1 hhead.2 hok.2.2.2.1 hok.2.2.2.2.1
    have heq := hnb.2 hin
    have hw : 0 < m.width := by unfold inBoard at hin; omega
    have hh : 0 < m.height := by unfold inBoard at hin; omega
    constructor
    · intro rx ry
      obtain ⟨fx, hfx, hx0, hx1⟩ := Intn_range m.width rx hw
      obtain ⟨fy, hfy, hy0, hy1⟩ := Intn_range m.height ry hh
      rw [Update_movement m head tl rx ry hrun hs hodd, heq, if_neg (not_not.mpr hin),
        if_neg hfree, if_pos hfood, hfx, hfy]
      exact ⟨_, rfl, hx0, hx1, hy0, hy1⟩
    · intro f hf
      obtain ⟨rx, hrx⟩ := Intn_onto m.width f.x hf.1 hf.2.1
      obtain ⟨ry, hry⟩ := Intn_onto m.height f.y hf.2.2.1 hf.2.2.2
      refine ⟨rx, ry, ?_⟩
      rw [Update_movement m head tl rx ry hrun hs hodd, heq, if_neg (not_not.mpr hin),
        if_neg hfree, if_pos hfood, hrx, hry]
      exact ⟨_, rfl, rfl⟩

/-- C12 amended, at Scenario C: the food eaten at (11,5) is redrawn inside the board, and the
draw (10,5) puts it on the snake. -/
theorem food_placed_in_board_witness :
    (∃ m, initialModel 3 4 = some m ∧ inBoard m m.food) ∧
    (∃ rx ry m, initialModel rx ry = some m ∧ m.food = { x := 10, y := 5 }) ∧
    (∃ m1, Update stateBeforeFood Msg.time 7 8 = some (m1, Cmd.tick) ∧ inBoard m1 m1.food) ∧
    (∃ rx ry m1, Update stateBeforeFood Msg.time rx ry = some (m1, Cmd.tick) ∧
      m1.food = { x := 10, y := 5 }) :=
  ⟨food_placed_in_board.1 3 4,
   food_placed_in_board.2.1 { x := 10, y := 5 } (by decide),
   (food_placed_in_board.2.2 stateBeforeFood { x := 10, y := 5 } [{ x := 9, y := 5 }]
      (by decide) rfl rfl (by decide) (by decide) (by decide) (by decide)).1 7 8,
   (food_placed_in_board.2.2 stateBeforeFood { x := 10, y := 5 } [{ x := 9, y := 5 }]
      (by decide) rfl rfl (by decide) (by decide) (by decide) (by decide)).2
      { x := 10, y := 5 } (by decide)⟩

/-! ## Quit -/

/-- C13, the code at a finished game: the keys q and ctrl+c return no command (`nil`), not
`tea.Quit`, although `View` prints "Press q to quit." for that very state; on a running state
both keys return `tea.Quit` with the state unchanged. -/
theorem quit_ignored_when_gameOver :
    stateOver.gameOver = true ∧
    Update stateOver (Msg.key "q") 0 0 = some (stateOver, Cmd.nil) ∧
    Update stateOver (Msg.key "ctrl+c") 0 0 = some (stateOver, Cmd.nil) ∧
    View plainRender stateOver = some "Game Over!\nPress q to quit.\n" ∧
    Update stateFresh (Msg.key "q") 0 0 = some (stateFresh, Cmd.quit) ∧
    Update stateFresh (Msg.key "ctrl+c") 0 0 = some (stateFresh, Cmd.quit) := by
  decide

/-! ## Two turns between two movement ticks -/

/-- C14, the code on a reachable state: from the game `initialModel` returns on the draw (11,5),
two timer messages (the snake eats and is two cells long, heading Right) and then the keys w and
a give a running state heading Left whose next cell is the snake's second segment; the next
movement tick ends the game. Each key passes the guard, which compares with the current heading
only. -/
theorem double_turn_reverses :
    initialModel 11 5 = some stateFoodAhead ∧
    runMsgs stateFoodAhead
      [(Msg.time, 0, 0), (Msg.time, 7, 8), (Msg.key "w", 0, 0), (Msg.key "a", 0, 0)]
      = some stateNeckAhead ∧
    Reachable stateNeckAhead ∧
    stateNeckAhead.gameOver = false ∧
    stateNeckAhead.snake = [{ x := 11, y := 5 }, { x := 10, y := 5 }] ∧
    stepCell stateNeckAhead.direction { x := 11, y := 5 } = { x := 10, y := 5 } ∧
    runTicks stateNeckAhead [(0, 0), (0, 0)] = some stateNeckHit ∧
    stateNeckHit.gameOver = true := by
  have hrun : runMsgs stateFoodAhead
      [(Msg.time, 0, 0), (Msg.time, 7, 8), (Msg.key "w", 0, 0), (Msg.key "a", 0, 0)]
      = some stateNeckAhead := by decide
  exact ⟨by decide, hrun,
    Reachable_runMsgs _ stateFoodAhead stateNeckAhead
      (Reachable.init 11 5 stateFoodAhead (by decide)) hrun,
    rfl, rfl, by decide, by decide, rfl⟩

/-! ## Scenario A -/

/-- The first two timer messages of a game, whatever the food: the first only counts, the
second moves the head to (11,5), eating if the food is there. -/
theorem first_two_ticks (f : position) (d1 d2 : Nat × Nat) :
    ∃ s, runTicks { snake := [{ x := 10, y := 5 }], direction := direction.right, food := f,
                    width := 20, height := 10, gameOver := false, tickCount := 0 } [d1, d2]
        = some s ∧ s.gameOver = false ∧ s.snake.head? = some { x := 11, y := 5 } ∧
      (f ≠ { x := 11, y := 5 } → s.snake = [{ x := 11, y := 5 }]) ∧
      (f = { x := 11, y := 5 } → s.snake = [{ x := 11, y := 5 }, { x := 10, y := 5 }]) := by
  have hw1 : wrap64 (0 + 1) = 1 := by decide
  have hnh : newHead direction.right { x := 10, y := 5 } = { x := 11, y := 5 } := by decide
  have h1 := Update_idle
    { snake := [{ x := 10, y := 5 }], direction := direction.right, food := f,
      width := 20, height := 10, gameOver := false, tickCount := 0 } d1.1 d1.2 rfl rfl
  have h2 := Update_movement
    { snake := [{ x := 10, y := 5 }], direction := direction.right, food := f,
      width := 20, height := 10, gameOver := false, tickCount := 1 }
    { x := 10, y := 5 } [] d2.1 d2.2 rfl rfl rfl
  simp only [hw1] at h1
  simp only [hnh] at h2
  rw [if_neg (by simp [inBoard]), if_neg (by decide)] at h2
  simp only [runTicks, List.map_cons, List.map_nil, runMsgs, h1, h2]
  by_cases hf : ({ x := 11, y := 5 } : position) = f
  · obtain ⟨fx, hfx, -, -⟩ := Intn_range 20 d2.1 (by decide)
    obtain ⟨fy, hfy, -, -⟩ := Intn_range 10 d2.2 (by decide)
    rw [if_pos hf, hfx, hfy]
    exact ⟨_, rfl, rfl, rfl, fun h => absurd hf.symm h, fun _ => rfl⟩
  · rw [if_neg hf]
    exact ⟨_, rfl, rfl, rfl, fun _ => rfl, fun h => absurd h.symm hf⟩

/-- C15, refuted: `initialModel` returns `stateFoodAhead` on the draw (11,5), and two timer
messages later the running snake is (11,5),(10,5): two segments, not one. -/
theorem scenario_A_food_ahead :
    initialModel 11 5 = some stateFoodAhead ∧
    runTicks stateFoodAhead [(0, 0), (7, 8)] = some stateFed ∧
    stateFed.gameOver = false ∧ stateFed.snake ≠ [{ x := 11, y := 5 }] ∧
    stateFed.snake.length = 2 := by
  decide

/-- C15, amended. From every state `initialModel` can return, two timer messages in a row give
a running state whose head is at (11,5); the snake is exactly [(11,5)] (length still 1) unless
the food was drawn at (11,5), in which case the snake has eaten and is [(11,5),(10,5)]. -/
theorem scenario_A (rx ry : Nat) (m : model) (d1 d2 : Nat × Nat)
    (h : initialModel rx ry = some m) :
    m.width = 20 ∧ m.height = 10 ∧ m.snake = [{ x := 10, y := 5 }] ∧
    m.direction = direction.right ∧ m.tickCount = 0 ∧ m.gameOver = false ∧
    ∃ s, runTicks m [d1, d2] = some s ∧ s.gameOver = false ∧
      s.snake.head? = some { x := 11, y := 5 } ∧
      (m.food ≠ { x := 11, y := 5 } → s.snake = [{ x := 11, y := 5 }]) ∧
      (m.food = { x := 11, y := 5 } → s.snake = [{ x := 11, y := 5 }, { x := 10, y := 5 }]) := by
  rw [initialModel_eq] at h
  simp only [Option.some.injEq] at h
  rw [← h]
  exact ⟨rfl, rfl, rfl, rfl, rfl, rfl, first_two_ticks _ d1 d2⟩

/-- C15 amended, on the game whose food was drawn at (3,4). -/
theorem scenario_A_witness :
    stateFresh.width = 20 ∧ stateFresh.height = 10 ∧ stateFresh.snake = [{ x := 10, y := 5 }] ∧
    stateFresh.direction = direction.right ∧ stateFresh.tickCount = 0 ∧
    stateFresh.gameOver = false ∧
    ∃ s, runTicks stateFresh [(0, 0), (0, 0)] = some s ∧ s.gameOver = false ∧
      s.snake.head? = some { x := 11, y := 5 } ∧
      (stateFresh.food ≠ { x := 11, y := 5 } → s.snake = [{ x := 11, y := 5 }]) ∧
      (stateFresh.food = { x := 11, y := 5 } →
        s.snake = [{ x := 11, y := 5 }, { x := 10, y := 5 }]) :=
  scenario_A 3 4 stateFresh (0, 0) (0, 0) (by decide)

/-! ## The rune grid of `View` -/

theorem wrap64_id (v : Int) (h : isInt64 v) : wrap64 v = v := by
  unfold isInt64 at h; unfold wrap64; omega

/-- The freshly filled board: its size, and the border or blank in each of its cells. -/
theorem emptyBoard_spec (m : model) (hH : 0 ≤ m.height + 2) (hW : 0 ≤ m.width + 2)
    (ha : gridAllocatable m) :
    ∃ b0, emptyBoard m = some b0 ∧ hasDims b0 (m.height + 2).toNat (m.width + 2).toNat ∧
      ∀ i j : Nat, i < (m.height + 2).toNat → j < (m.width + 2).toNat →
        cellAt b0 i j = some (if (i : Int) = 0 ∨ (i : Int) = m.height + 1 then '-'
          else if (j : Int) = 0 ∨ (j : Int) = m.width + 1 then '|' else ' ') := by
  unfold gridAllocatable maxAlloc at ha
  have e1 : wrap64 (m.height + 2) = m.height + 2 := by unfold wrap64; omega
  have e2 : wrap64 (m.width + 2) = m.width + 2 := by unfold wrap64; omega
  have e3 : wrap64 (m.height + 1) = m.height + 1 := by unfold wrap64; omega
  have e4 : wrap64 (m.width + 1) = m.width + 1 := by unfold wrap64; omega
  have a1 : makeslice 24 (m.height + 2) = true := by
    unfold makeslice maxAlloc; exact decide_eq_true ⟨hH, ha.1⟩
  have a2 : makeslice 4 (m.width + 2) = true := by
    unfold makeslice maxAlloc; exact decide_eq_true ⟨hW, ha.2⟩
  unfold emptyBoard
  simp only [e1, e2, e3, e4, a1, a2]
  rw [if_neg (by simp), if_neg (by simp)]
  refine ⟨_, rfl, ⟨by simp, ?_⟩, ?_⟩
  · intro row hrow
    obtain ⟨i, -, hi⟩ := List.mem_map.mp hrow
    rw [← hi]; simp
  · intro i j hi hj
    unfold cellAt
    rw [List.getElem?_map, List.getElem?_range hi]
    simp only [Option.map_some']
    rw [List.getElem?_map, List.getElem?_range hj]
    rfl

/-- An in-range assignment `board[r][c] = ch` succeeds, keeps the size of the grid and changes
that one cell only. -/
theorem setCell_spec (b : List (List Char)) (rows cols : Nat) (r c : Int) (ch : Char)
    (hd : hasDims b rows cols) (hr0 : 0 ≤ r) (hr1 : r < rows) (hc0 : 0 ≤ c) (hc1 : c < cols) :
    ∃ b1, setCell b r c ch = some b1 ∧ hasDims b1 rows cols ∧
      ∀ i j : Nat, cellAt b1 i j = if i = r.toNat ∧ j = c.toNat then some ch else cellAt b i j := by
  obtain ⟨hlen, hrows⟩ := hd
  have hrn : r.toNat < b.length := by omega
  have hget : b[r.toNat]? = some b[r.toNat] := List.getElem?_eq_getElem hrn
  have hrowlen : (b[r.toNat]).length = cols := hrows _ (List.getElem_mem _)
  unfold setCell
  rw [if_neg (by omega), hget]
  simp only
  rw [if_neg (by omega)]
  refine ⟨_, rfl, ⟨by rw [List.length_set]; exact hlen, ?_⟩, ?_⟩
  · intro row hrow
    rcases List.mem_or_eq_of_mem_set hrow with h | h
    · exact hrows row h
    · rw [h, List.length_set]; exact hrowlen
  · intro i j
    unfold cellAt
    rw [List.getElem?_set]
    by_cases hi : r.toNat = i
    · subst hi
      rw [if_pos rfl, if_pos hrn, hget]
      simp only
      rw [List.getElem?_set]
      by_cases hj : c.toNat = j
      · subst hj
        have hcn : c.toNat < (b[r.toNat]).length := by omega
        simp [hcn]
      · rw [if_neg hj, if_neg (fun h => hj h.2.symm)]
    · rw [if_neg hi, if_neg (fun h => hi h.1.symm)]

/-- Drawing a snake whose cells are all inside the grid succeeds and keeps the size; a cell no
segment is drawn at keeps its rune; and when the segments occupy distinct cells, the segment
with index `k` of the list shows the digit zero if it is the head of the whole snake (the loop
was entered at index 0 and `k = 0`) and the capital letter O otherwise. -/
theorem drawSnake_spec (rows cols : Nat) (l : List position) :
    ∀ (b : List (List Char)) (i : Nat), hasDims b rows cols →
      (∀ p ∈ l, 0 ≤ wrap64 (p.y + 1) ∧ wrap64 (p.y + 1) < rows ∧
        0 ≤ wrap64 (p.x + 1) ∧ wrap64 (p.x + 1) < cols) →
      ∃ b1, drawSnake b i l = some b1 ∧ hasDims b1 rows cols ∧
        (∀ r c : Nat, (∀ p ∈ l, cellOf p ≠ (r, c)) → cellAt b1 r c = cellAt b r c) ∧
        (l.Pairwise (fun p q => cellOf p ≠ cellOf q) → ∀ (k : Nat) (p : position),
          l[k]? = some p →
          cellAt b1 (cellOf p).1 (cellOf p).2 = some (if i + k = 0 then '0' else 'O')) := by
  induction l with
  | nil =>
    intro b i hd _
    exact ⟨b, rfl, hd, fun _ _ _ => rfl, fun _ k p h => by simp at h⟩
  | cons p rest ih =>
    intro b i hd hin
    have hp := hin p (List.mem_cons_self _ _)
    obtain ⟨b1, hset, hd1, hcell1⟩ := setCell_spec b rows cols (wrap64 (p.y + 1))
      (wrap64 (p.x + 1)) (if i = 0 then '0' else 'O') hd hp.1 hp.2.1 hp.2.2.1 hp.2.2.2
    obtain ⟨b2, hdraw, hd2, hkeep, hsegs⟩ :=
      ih b1 (i + 1) hd1 (fun q hq => hin q (List.mem_cons_of_mem _ hq))
    refine ⟨b2, ?_, hd2, ?_, ?_⟩
    · simp only [drawSnake, hset]
      exact hdraw
    · intro r c hne
      rw [hkeep r c (fun q hq => hne q (List.mem_cons_of_mem _ hq)), hcell1, if_neg]
      intro h
      exact hne p (List.mem_cons_self _ _) (by unfold cellOf; rw [h.1, h.2])
    · intro hpw k q hk
      rw [List.pairwise_cons] at hpw
      cases k with
      | zero =>
        simp only [List.getElem?_cons_zero, Option.some.injEq] at hk
        subst hk
        have hk1 := hkeep (cellOf p).1 (cellOf p).2 (fun q hq => (hpw.1 q hq).symm)
        rw [hk1, hcell1, if_pos ⟨rfl, rfl⟩]
        simp
      | succ k =>
        simp only [List.getElem?_cons_succ] at hk
        rw [hsegs hpw.2 k q hk]
        have e : (i + 1 + k = 0) = (i + (k + 1) = 0) := by
          apply propext; omega
        simp only [e]

/-- On a board whose grid dimensions are Go integers, a position inside the board is drawn at
row `y+1`, column `x+1`, inside the grid and off its border. -/
theorem cellOf_inBoard (m : model) (p : position) (hW2 : isInt64 (m.width + 2))
    (hH2 : isInt64 (m.height + 2)) (hp : inBoard m p) :
    wrap64 (p.y + 1) = p.y + 1 ∧ wrap64 (p.x + 1) = p.x + 1 ∧
    cellOf p = ((p.y + 1).toNat, (p.x + 1).toNat) ∧
    0 < p.y + 1 ∧ p.y + 1 < m.height + 1 ∧ 0 < p.x + 1 ∧ p.x + 1 < m.width + 1 := by
  unfold inBoard at hp
  unfold isInt64 at hW2 hH2
  have e1 : wrap64 (p.y + 1) = p.y + 1 := by unfold wrap64; omega
  have e2 : wrap64 (p.x + 1) = p.x + 1 := by unfold wrap64; omega
  refine ⟨e1, e2, ?_, by omega, by omega, by omega, by omega⟩
  unfold cellOf
  rw [e1, e2]

/-- Distinct positions inside the board are drawn at distinct cells. -/
theorem cellOf_injective (m : model) (p q : position) (hW2 : isInt64 (m.width + 2))
    (hH2 : isInt64 (m.height + 2)) (hp : inBoard m p) (hq : inBoard m q)
    (h : cellOf p = cellOf q) : p = q := by
  have ep := cellOf_inBoard m p hW2 hH2 hp
  have eq := cellOf_inBoard m q hW2 hH2 hq
  rw [ep.2.2.1, eq.2.2.1] at h
  simp only [Prod.mk.injEq] at h
  cases p with
  | mk px py =>
    cases q with
    | mk qx qy =>
      simp only at ep eq h
      simp only [position.mk.injEq]
      omega

/-- The rune grid of `View` for a state whose snake and food are inside a board whose grid
`make` can allocate: it is built without a panic, has `height+2` rows of `width+2` cells,
shows the food at the food's cell, the border or blank wherever neither a segment nor the food
is drawn, and, when the segments are pairwise distinct, each segment that is not under the food
as the head or body rune. -/
theorem viewBoard_spec (m : model) (hw : 0 < m.width) (hh : 0 < m.height)
    (ha : gridAllocatable m)
    (hs : ∀ p ∈ m.snake, inBoard m p) (hf : inBoard m m.food) :
    ∃ b, viewBoard m = some b ∧ hasDims b (m.height + 2).toNat (m.width + 2).toNat ∧
      cellAt b (m.food.y + 1).toNat (m.food.x + 1).toNat = some 'X' ∧
      (∀ r c : Nat, r < (m.height + 2).toNat → c < (m.width + 2).toNat →
        (∀ p : position, p ∈ m.snake ∨ p = m.food → ((p.y + 1).toNat, (p.x + 1).toNat) ≠ (r, c)) →
        cellAt b r c = some (if (r : Int) = 0 ∨ (r : Int) = m.height + 1 then '-'
          else if (c : Int) = 0 ∨ (c : Int) = m.width + 1 then '|' else ' ')) ∧
      (m.snake.Nodup → ∀ (k : Nat) (p : position), m.snake[k]? = some p → p ≠ m.food →
        cellAt b (p.y + 1).toNat (p.x + 1).toNat = some (if k = 0 then '0' else 'O')) := by
  have hW2 : isInt64 (m.width + 2) := by
    unfold gridAllocatable maxAlloc at ha; unfold isInt64; omega
  have hH2 : isInt64 (m.height + 2) := by
    unfold gridAllocatable maxAlloc at ha; unfold isInt64; omega
  obtain ⟨b0, h0, hd0, hc0⟩ := emptyBoard_spec m (by omega) (by omega) ha
  have hin : ∀ p ∈ m.snake, 0 ≤ wrap64 (p.y + 1) ∧
      wrap64 (p.y + 1) < ((m.height + 2).toNat : Int) ∧
      0 ≤ wrap64 (p.x + 1) ∧ wrap64 (p.x + 1) < ((m.width + 2).toNat : Int) := by
    intro p hp
    have e := cellOf_inBoard m p hW2 hH2 (hs p hp)
    rw [e.1, e.2.1]
    omega
  obtain ⟨b1, h1, hd1, hkeep, hsegs⟩ := drawSnake_spec _ _ m.snake b0 0 hd0 hin
  have ef := cellOf_inBoard m m.food hW2 hH2 hf
  obtain ⟨b2, h2, hd2, hc2⟩ := setCell_spec b1 _ _ (wrap64 (m.food.y + 1))
    (wrap64 (m.food.x + 1)) 'X' hd1 (by rw [ef.1]; omega) (by rw [ef.1]; omega)
    (by rw [ef.2.1]; omega) (by rw [ef.2.1]; omega)
  rw [ef.1, ef.2.1] at hc2
  refine ⟨b2, ?_, hd2, ?_, ?_, ?_⟩
  · unfold viewBoard
    simp only [h0, h1]
    exact h2
  · rw [hc2, if_pos ⟨rfl, rfl⟩]
  · intro r c hr hc hfree
    have hnf : ¬ (r = (m.food.y + 1).toNat ∧ c = (m.food.x + 1).toNat) := by
      intro h
      exact hfree m.food (Or.inr rfl) (by rw [h.1, h.2])
    have hns : ∀ p ∈ m.snake, cellOf p ≠ (r, c) := by
      intro p hp
      rw [(cellOf_inBoard m p hW2 hH2 (hs p hp)).2.2.1]
      exact hfree p (Or.inl hp)
    rw [hc2, if_neg hnf, hkeep r c hns, hc0 r c hr hc]
  · intro hnd k p hk hne
    have hp : p ∈ m.snake := by
      obtain ⟨hlt, e⟩ := List.getElem?_eq_some.mp hk
      rw [← e]; exact List.getElem_mem _
    have hpw : m.snake.Pairwise (fun p q => cellOf p ≠ cellOf q) := by
      refine List.Pairwise.imp_of_mem ?_ hnd
      intro a c ha hc hac h
      exact hac (cellOf_injective m a c hW2 hH2 (hs a ha) (hs c hc) h)
    have hcell := hsegs hpw k p hk
    have ep := cellOf_inBoard m p hW2 hH2 (hs p hp)
    rw [ep.2.2.1] at hcell
    have hnf : ¬ ((p.y + 1).toNat = (m.food.y + 1).toNat ∧
        (p.x + 1).toNat = (m.food.x + 1).toNat) := by
      intro h
      apply hne
      apply cellOf_injective m p m.food hW2 hH2 (hs p hp) hf
      rw [ep.2.2.1, ef.2.2.1, h.1, h.2]
    rw [hc2, if_neg hnf, hcell]
    simp

theorem foldl_append_eq (l : List String) :
    ∀ s : String, l.foldl (fun r t => r ++ t) s = s ++ String.join l := by
  induction l with
  | nil => intro s; simp [String.join]
  | cons a l ih =>
    intro s
    have e : String.join (a :: l) = l.foldl (fun r t => r ++ t) ("" ++ a) := rfl
    rw [List.foldl_cons, ih, e, ih, String.empty_append, String.append_assoc]

theorem join_cons (a : String) (l : List String) : String.join (a :: l) = a ++ String.join l := by
  have e : String.join (a :: l) = l.foldl (fun r t => r ++ t) ("" ++ a) := rfl
  rw [e, foldl_append_eq, String.empty_append]

/-- The text `View` builds is the concatenation of its rows, each row the concatenation of its
cells followed by a newline. -/
theorem boardString_eq (render : Style → String → String) (board : List (List Char)) :
    boardString render board = String.join (board.map (rowString render)) := by
  have hrow : ∀ (row : List Char) (s : String),
      row.foldl (fun t cell => t ++ cellString render cell) s =
        s ++ String.join (row.map (cellString render)) := by
    intro row
    induction row with
    | nil => intro s; simp [String.join]
    | cons c row ih =>
      intro s
      rw [List.foldl_cons, ih, List.map_cons, join_cons, String.append_assoc]
  have hboard : ∀ (b : List (List Char)) (acc : String),
      b.foldl (fun s row => row.foldl (fun t cell => t ++ cellString render cell) s ++ "\n") acc
        = acc ++ String.join (b.map (rowString render)) := by
    intro b
    induction b with
    | nil => intro acc; simp [String.join]
    | cons row b ih =>
      intro acc
      rw [List.foldl_cons, ih, hrow, List.map_cons, join_cons]
      unfold rowString
      simp only [String.append_assoc]
  unfold boardString
  rw [hboard, String.empty_append]

/-! ## What `View` shows -/

/-- The text the `switch cell` of `View` appends for a cell is the character itself, rendered
in the style of its kind if it has one. -/
theorem cellString_eq (render : Style → String → String) (c : Char) :
    cellString render c = cellText render c := by
  have hs : String.singleton c = String.mk [c] := rfl
  unfold cellString cellText styleOf
  rw [hs]
  split_ifs <;> simp_all

theorem rowString_eq (render : Style → String → String) (row : List Char) :
    rowString render row = String.join (row.map (cellText render)) ++ "\n" := by
  unfold rowString
  congr 2
  exact List.map_congr_left (fun c _ => cellString_eq render c)

/-- Without styling a row of the frame is the row of characters followed by a newline. -/
theorem rowString_plain (row : List Char) :
    rowString plainRender row = String.mk row ++ "\n" := by
  have hcell : ∀ c : Char, cellText plainRender c = String.mk [c] := by
    intro c
    unfold cellText plainRender
    cases styleOf c <;> rfl
  have hjoin : ∀ l : List Char, String.join (l.map (cellText plainRender)) = String.mk l := by
    intro l
    induction l with
    | nil => rfl
    | cons c l ih =>
      rw [List.map_cons, join_cons, ih, hcell]
      rfl
  rw [rowString_eq, hjoin]

/-- C16, refuted: two running states with width, height > 0 whose snake and food are inside
the board and on which `View` panics instead of returning a frame. On the board 2^46 cells wide
`make([]rune, m.width+2)` asks for more than the allocation limit; on the board 2^63 - 2 cells
wide `m.width+2` wraps around to a negative length. -/
theorem render_grid_make_panics :
    (stateWideBoard.gameOver = false ∧ 0 < stateWideBoard.width ∧ 0 < stateWideBoard.height ∧
      (∀ p ∈ stateWideBoard.snake, inBoard stateWideBoard p) ∧
      inBoard stateWideBoard stateWideBoard.food ∧
      viewBoard stateWideBoard = none ∧ View plainRender stateWideBoard = none) ∧
    (stateWrapBoard.gameOver = false ∧ 0 < stateWrapBoard.width ∧ 0 < stateWrapBoard.height ∧
      (∀ p ∈ stateWrapBoard.snake, inBoard stateWrapBoard p) ∧
      inBoard stateWrapBoard stateWrapBoard.food ∧
      viewBoard stateWrapBoard = none ∧ View plainRender stateWrapBoard = none) := by
  decide

/-- C16, amended. Render grid shape and border: for a running state with width, height > 0
whose snake segments and food are inside the board and whose grid `make` can allocate
(`24 * (height+2)` and `4 * (width+2)` bytes within the allocation limit), `View` returns
the text of exactly `height+2` rows, each of exactly `width+2` cells followed by a newline, the
text of a cell being its character rendered in the style of its kind (the bare rows of characters
when nothing is styled); every cell of the first and of the last row is the hyphen, in every other
row the first and the last cell are the vertical bar (no snake or food cell overwrites a border
cell), and every interior cell that is neither a segment's nor the food's is a blank. -/
theorem render_grid (render : Style → String → String) (m : model) (hrun : m.gameOver = false)
    (hw : 0 < m.width) (hh : 0 < m.height) (ha : gridAllocatable m)
    (hs : ∀ p ∈ m.snake, inBoard m p) (hf : inBoard m m.food) :
    ∃ b, viewBoard m = some b ∧
      View render m = some (String.join
        (b.map (fun row => String.join (row.map (cellText render)) ++ "\n"))) ∧
      View plainRender m = some (String.join (b.map (fun row => String.mk row ++ "\n"))) ∧
      (b.length : Int) = m.height + 2 ∧ (∀ row ∈ b, (row.length : Int) = m.width + 2) ∧
      (∀ j : Nat, (j : Int) < m.width + 2 →
        cellAt b 0 j = some '-' ∧ cellAt b (m.height + 1).toNat j = some '-') ∧
      (∀ i : Nat, 0 < i → (i : Int) < m.height + 1 →
        cellAt b i 0 = some '|' ∧ cellAt b i (m.width + 1).toNat = some '|') ∧
      (∀ p : position, inBoard m p → p ∉ m.snake → p ≠ m.food →
        cellAt b (p.y + 1).toNat (p.x + 1).toNat = some ' ') := by
  obtain ⟨b, hb, hd, -, hframe, -⟩ := viewBoard_spec m hw hh ha hs hf
  have hin : ∀ p : position, p ∈ m.snake ∨ p = m.food → inBoard m p := by
    intro p hp
    rcases hp with hp | hp
    · exact hs p hp
    · rw [hp]; exact hf
  have hview : ∀ r : Style → String → String,
      View r m = some (String.join (b.map (rowString r))) := by
    intro r
    unfold View
    simp only [hrun, hb, Bool.false_eq_true, if_false, boardString_eq]
  refine ⟨b, hb, ?_, ?_, ?_, ?_, ?_, ?_, ?_⟩
  · rw [hview render]
    congr 2
    exact List.map_congr_left (fun row _ => rowString_eq render row)
  · rw [hview plainRender]
    congr 2
    exact List.map_congr_left (fun row _ => rowString_plain row)
  · rw [hd.1]; omega
  · intro row hrow
    rw [hd.2 row hrow]; omega
  · intro j hj
    constructor
    · rw [hframe 0 j (by omega) (by omega) (fun p hp h => by
        have := hin p hp
        unfold inBoard at this
        simp only [Prod.mk.injEq] at h
        omega)]
      simp
    · rw [hframe (m.height + 1).toNat j (by omega) (by omega) (fun p hp h => by
        have := hin p hp
        unfold inBoard at this
        simp only [Prod.mk.injEq] at h
        omega)]
      rw [if_pos (Or.inr (by omega))]
  · intro i hi0 hi1
    constructor
    · rw [hframe i 0 (by omega) (by omega) (fun p hp h => by
        have := hin p hp
        unfold inBoard at this
        simp only [Prod.mk.injEq] at h
        omega)]
      rw [if_neg (by omega)]
      simp
    · rw [hframe i (m.width + 1).toNat (by omega) (by omega) (fun p hp h => by
        have := hin p hp
        unfold inBoard at this
        simp only [Prod.mk.injEq] at h
        omega)]
      rw [if_neg (by omega), if_pos (Or.inr (by omega))]
  · intro p hp hps hpf
    have hpb := hp
    unfold inBoard at hpb
    rw [hframe (p.y + 1).toNat (p.x + 1).toNat (by omega) (by omega) (fun q hq h => by
        have hqb := hin q hq
        have hqe : q = p := by
          have hqb2 := hqb
          unfold inBoard at hqb2
          simp only [Prod.mk.injEq] at h
          cases p with
          | mk px py =>
            cases q with
            | mk qx qy =>
              simp only at hpb hqb2 h
              simp only [position.mk.injEq]
              omega
        rcases hq with hq | hq
        · exact hps (hqe ▸ hq)
        · exact hpf (hqe ▸ hq))]
    rw [if_neg (by omega), if_neg (by omega)]

/-- C16 amended, on the 3 x 2 board: four rows of five cells, border all around, blanks
inside. -/
theorem render_grid_witness :
    ∃ b, viewBoard stateSmallBoard = some b ∧
      View plainRender stateSmallBoard = some (String.join
        (b.map (fun row => String.join (row.map (cellText plainRender)) ++ "\n"))) ∧
      View plainRender stateSmallBoard =
        some (String.join (b.map (fun row => String.mk row ++ "\n"))) ∧
      (b.length : Int) = stateSmallBoard.height + 2 ∧
      (∀ row ∈ b, (row.length : Int) = stateSmallBoard.width + 2) ∧
      (∀ j : Nat, (j : Int) < stateSmallBoard.width + 2 →
        cellAt b 0 j = some '-' ∧ cellAt b (stateSmallBoard.height + 1).toNat j = some '-') ∧
      (∀ i : Nat, 0 < i → (i : Int) < stateSmallBoard.height + 1 →
        cellAt b i 0 = some '|' ∧ cellAt b i (stateSmallBoard.width + 1).toNat = some '|') ∧
      (∀ p : position, inBoard stateSmallBoard p → p ∉ stateSmallBoard.snake →
        p ≠ stateSmallBoard.food → cellAt b (p.y + 1).toNat (p.x + 1).toNat = some ' ') :=
  render_grid plainRender stateSmallBoard rfl (by decide) (by decide) (by decide)
    (by decide) (by decide)

/-- The board of a reachable state is the 20 x 10 board `initialModel` creates. -/
theorem Reachable_board (m : model) (h : Reachable m) : m.width = 20 ∧ m.height = 10 := by
  induction h with
  | init rx ry m h0 =>
    rw [initialModel_eq] at h0
    simp only [Option.some.injEq] at h0
    rw [← h0]
    exact ⟨rfl, rfl⟩
  | step m msg rx ry m1 c _ hu ih =>
    rcases Update_cases m m1 c msg rx ry hu with h1 | h1 | h1 | h1 | h1 | h1
    · rw [h1.1]; exact ih
    · obtain ⟨-, -, d, -, e⟩ := h1
      rw [e]; exact ih
    · rw [h1.2.2]; exact ih
    · rw [h1.2.2]; exact ih
    · obtain ⟨-, -, head, tl, fx, fy, -, -, -, -, -, -, -, -, e⟩ := h1
      rw [e]; exact ih
    · obtain ⟨-, -, head, tl, -, -, -, -, e⟩ := h1
      rw [e]; exact ih

/-- In a reachable state the snake and the food are inside the board. -/
theorem Reachable_inBoard (m : model) (h : Reachable m) :
    (∀ p ∈ m.snake, inBoard m p) ∧ inBoard m m.food := by
  induction h with
  | init rx ry m h0 =>
    rw [initialModel_eq] at h0
    simp only [Option.some.injEq] at h0
    rw [← h0]
    refine ⟨?_, ?_⟩
    · intro p hp
      rw [List.mem_singleton.mp hp]
      simp [inBoard]
    · simp only [inBoard]
      omega
  | step m msg rx ry m1 c _ hu ih => exact Update_keeps_inBoard m m1 c msg rx ry hu ih

/-- What `View` puts on the grid of a reachable state. -/
theorem Reachable_viewBoard (m : model) (h : Reachable m) :
    ∃ b, viewBoard m = some b ∧ hasDims b 12 22 ∧
      cellAt b (m.food.y + 1).toNat (m.food.x + 1).toNat = some 'X' ∧
      (∀ (k : Nat) (p : position), m.snake[k]? = some p → p ≠ m.food →
        cellAt b (p.y + 1).toNat (p.x + 1).toNat = some (if k = 0 then '0' else 'O')) := by
  obtain ⟨hw, hh⟩ := Reachable_board m h
  obtain ⟨hs, hf⟩ := Reachable_inBoard m h
  have ha : gridAllocatable m := by
    unfold gridAllocatable; rw [hw, hh]; decide
  obtain ⟨b, hb, hd, hfood, -, hsegs⟩ := viewBoard_spec m (by rw [hw]; decide) (by rw [hh]; decide)
    ha hs hf
  rw [hw, hh] at hd
  exact ⟨b, hb, hd, hfood, hsegs (Reachable_nodup m h)⟩

/-- C17, refuted: the game `initialModel` returns on the draw (10,5) is running, its head is
at (10,5), and the grid cell at row 6, column 11 shows the food rune, not the head rune: the
food, drawn last, has overwritten the head. -/
theorem food_drawn_over_head :
    Reachable stateFoodOnHead ∧ stateFoodOnHead.gameOver = false ∧
    stateFoodOnHead.snake.head? = some { x := 10, y := 5 } ∧
    (viewBoard stateFoodOnHead).bind (fun b => cellAt b (5 + 1) (10 + 1)) = some 'X' ∧
    (viewBoard stateFoodOnHead).bind (fun b => cellAt b (5 + 1) (10 + 1)) ≠ some '0' :=
  ⟨Reachable.init 10 5 stateFoodOnHead (by decide), rfl, rfl, by decide, by decide⟩

/-- C17, amended. In every reachable running state the grid `View` renders shows the food rune
at row `food.y+1`, column `food.x+1`, and for every snake segment (x, y) that does not lie on the
food position the cell at row `y+1`, column `x+1` shows the head rune (digit zero) for the head
and the body rune (capital O) for every other segment; a segment under the food shows the food
rune, the food being drawn last. -/
theorem render_snake (render : Style → String → String) (m : model) (h : Reachable m)
    (hrun : m.gameOver = false) :
    ∃ b, viewBoard m = some b ∧
      View render m = some (String.join (b.map (rowString render))) ∧
      cellAt b (m.food.y + 1).toNat (m.food.x + 1).toNat = some 'X' ∧
      ∀ (k : Nat) (p : position), m.snake[k]? = some p →
        (p ≠ m.food →
          cellAt b (p.y + 1).toNat (p.x + 1).toNat = some (if k = 0 then '0' else 'O')) ∧
        (p = m.food → cellAt b (p.y + 1).toNat (p.x + 1).toNat = some 'X') := by
  obtain ⟨b, hb, -, hfood, hsegs⟩ := Reachable_viewBoard m h
  refine ⟨b, hb, ?_, hfood, fun k p hk => ⟨hsegs k p hk, fun e => by rw [e]; exact hfood⟩⟩
  unfold View
  simp only [hrun, hb, Bool.false_eq_true, if_false, boardString_eq]

/-- C17 amended, on the two-segment snake that has just eaten: head rune at row 6, column 12,
body rune at row 6, column 11, food rune at row 9, column 8. -/
theorem render_snake_witness :
    ∃ b, viewBoard stateFed = some b ∧
      View plainRender stateFed = some (String.join (b.map (rowString plainRender))) ∧
      cellAt b (stateFed.food.y + 1).toNat (stateFed.food.x + 1).toNat = some 'X' ∧
      ∀ (k : Nat) (p : position), stateFed.snake[k]? = some p →
        (p ≠ stateFed.food →
          cellAt b (p.y + 1).toNat (p.x + 1).toNat = some (if k = 0 then '0' else 'O')) ∧
        (p = stateFed.food → cellAt b (p.y + 1).toNat (p.x + 1).toNat = some 'X') :=
  render_snake plainRender stateFed stateFed_reachable rfl

/-! ## No panic -/

/-- On a non-empty snake `Update` returns: neither `m.snake[0]` nor `rand.Intn` panics. -/
theorem Update_total (m : model) (msg : Msg) (rx ry : Nat) (hne : m.snake ≠ []) :
    ∃ m1 c, Update m msg rx ry = some (m1, c) := by
  rcases Bool.eq_false_or_eq_true m.gameOver with hgo | hgo
  · exact ⟨_, _, Update_gameOver m msg rx ry hgo⟩
  cases msg with
  | other => exact ⟨_, _, Update_other m rx ry⟩
  | key s =>
    obtain ⟨k, ck, hk, -⟩ := Update_key m s rx ry hgo
    exact ⟨k, ck, hk⟩
  | time =>
    rcases Int.emod_two_eq m.tickCount with heven | hodd
    · exact ⟨_, _, Update_idle m rx ry hgo heven⟩
    obtain ⟨head, tl, hs⟩ := List.exists_cons_of_ne_nil hne
    rw [Update_movement m head tl rx ry hgo hs hodd]
    by_cases hin : inBoard m (newHead m.direction head)
    · rw [if_neg (not_not.mpr hin)]
      by_cases hmem : newHead m.direction head ∈ m.snake
      · rw [if_pos hmem]; exact ⟨_, _, rfl⟩
      · rw [if_neg hmem]
        by_cases hfood : newHead m.direction head = m.food
        · have hw : 0 < m.width := by unfold inBoard at hin; omega
          have hh : 0 < m.height := by unfold inBoard at hin; omega
          obtain ⟨fx, hfx, -, -⟩ := Intn_range m.width rx hw
          obtain ⟨fy, hfy, -, -⟩ := Intn_range m.height ry hh
          rw [if_pos hfood, hfx, hfy]
          exact ⟨_, _, rfl⟩
        · rw [if_neg hfood]; exact ⟨_, _, rfl⟩
    · rw [if_pos hin]; exact ⟨_, _, rfl⟩

/-- C18. No index is ever out of range: in every reachable state the snake has a segment at
index 0, every write of `View` for a snake segment p and for the food has its row index `y+1` in
`[0, height+2)` and its column index `x+1` in `[0, width+2)`, and neither `Update` (on any
message, with any random draw) nor `View` panics: both return. -/
theorem no_index_out_of_range (m : model) (h : Reachable m) :
    0 < m.snake.length ∧
    (∀ p ∈ m.snake, 0 ≤ p.y + 1 ∧ p.y + 1 < m.height + 2 ∧ 0 ≤ p.x + 1 ∧ p.x + 1 < m.width + 2) ∧
    (0 ≤ m.food.y + 1 ∧ m.food.y + 1 < m.height + 2 ∧
      0 ≤ m.food.x + 1 ∧ m.food.x + 1 < m.width + 2) ∧
    (∀ (msg : Msg) (rx ry : Nat), ∃ m1 c, Update m msg rx ry = some (m1, c)) ∧
    (∀ render : Style → String → String, ∃ s, View render m = some s) := by
  obtain ⟨hs, hf⟩ := Reachable_inBoard m h
  have hne := Reachable_nonempty m h
  refine ⟨List.length_pos.mpr hne, ?_, ?_, fun msg rx ry => Update_total m msg rx ry hne, ?_⟩
  · intro p hp
    have := hs p hp
    unfold inBoard at this
    omega
  · unfold inBoard at hf
    omega
  · intro render
    obtain ⟨b, hb, -, -, -⟩ := Reachable_viewBoard m h
    unfold View
    rcases Bool.eq_false_or_eq_true m.gameOver with hgo | hgo
    · exact ⟨_, by rw [if_pos hgo]⟩
    · simp only [hgo, hb, Bool.false_eq_true, if_false]
      exact ⟨_, rfl⟩

/-- C18, on the fresh game after its first move. -/
theorem no_index_out_of_range_witness :
    0 < stateFreshMoved.snake.length ∧
    (∀ p ∈ stateFreshMoved.snake, 0 ≤ p.y + 1 ∧ p.y + 1 < stateFreshMoved.height + 2 ∧
      0 ≤ p.x + 1 ∧ p.x + 1 < stateFreshMoved.width + 2) ∧
    (0 ≤ stateFreshMoved.food.y + 1 ∧ stateFreshMoved.food.y + 1 < stateFreshMoved.height + 2 ∧
      0 ≤ stateFreshMoved.food.x + 1 ∧ stateFreshMoved.food.x + 1 < stateFreshMoved.width + 2) ∧
    (∀ (msg : Msg) (rx ry : Nat), ∃ m1 c, Update stateFreshMoved msg rx ry = some (m1, c)) ∧
    (∀ render : Style → String → String, ∃ s, View render stateFreshMoved = some s) :=
  no_index_out_of_range stateFreshMoved stateFreshMoved_reachable

/-! ## Shape of the snake -/

/-- A new head that is inside the board is a grid neighbour of the old head. -/
theorem newHead_neighbours (m : model) (d : direction) (head : position)
    (hW : isInt64 m.width) (hH : isInt64 m.height) (hb : inBoard m head)
    (hn : inBoard m (newHead d head)) : neighbours (newHead d head) head := by
  unfold isInt64 at hW hH
  unfold inBoard at hb hn
  cases d with
  | up =>
    simp only [newHead] at hn
    have e : wrap64 (head.y - 1) = head.y - 1 := by
      unfold wrap64 at hn ⊢; omega
    simp [newHead, neighbours, e]
  | down =>
    simp only [newHead] at hn
    have e : wrap64 (head.y + 1) = head.y + 1 := by
      unfold wrap64 at hn ⊢; omega
    simp [newHead, neighbours, e]
  | left =>
    simp only [newHead] at hn
    have e : wrap64 (head.x - 1) = head.x - 1 := by
      unfold wrap64 at hn ⊢; omega
    simp [newHead, neighbours, e]
  | right =>
    simp only [newHead] at hn
    have e : wrap64 (head.x + 1) = head.x + 1 := by
      unfold wrap64 at hn ⊢; omega
    simp [newHead, neighbours, e]

/-- In a reachable state consecutive segments are grid neighbours. -/
theorem Reachable_chain (m : model) (h : Reachable m) : m.snake.Chain' neighbours := by
  induction h with
  | init rx ry m h0 =>
    rw [initialModel_eq] at h0
    simp only [Option.some.injEq] at h0
    rw [← h0]
    exact List.chain'_singleton _
  | step m msg rx ry m1 c hm hu ih =>
    obtain ⟨hw, hh⟩ := Reachable_board m hm
    obtain ⟨hs, -⟩ := Reachable_inBoard m hm
    have hW : isInt64 m.width := by rw [hw]; decide
    have hH : isInt64 m.height := by rw [hh]; decide
    rcases Update_cases m m1 c msg rx ry hu with h1 | h1 | h1 | h1 | h1 | h1
    · rw [h1.1]; exact ih
    · obtain ⟨-, -, d, -, e⟩ := h1
      rw [e]; exact ih
    · rw [h1.2.2]; exact ih
    · rw [h1.2.2]; exact ih
    · obtain ⟨-, -, head, tl, fx, fy, hsn, hin, -, -, -, -, -, -, e⟩ := h1
      have hnb := newHead_neighbours m m.direction head hW hH
        (hs head (by rw [hsn]; exact List.mem_cons_self _ _)) hin
      rw [e]
      simp only
      rw [hsn] at ih ⊢
      exact List.chain'_cons.mpr ⟨hnb, ih⟩
    · obtain ⟨-, -, head, tl, hsn, hin, -, -, e⟩ := h1
      have hnb := newHead_neighbours m m.direction head hW hH
        (hs head (by rw [hsn]; exact List.mem_cons_self _ _)) hin
      rw [e]
      simp only
      rw [hsn] at ih ⊢
      cases tl with
      | nil => exact List.chain'_singleton _
      | cons q tl =>
        have hpre : List.Chain' neighbours (head :: q :: tl).dropLast :=
          ih.prefix (List.dropLast_prefix _)
        rw [List.dropLast_cons₂] at hpre ⊢
        exact List.chain'_cons.mpr ⟨hnb, hpre⟩

/-- C19. Contiguity invariant: in every reachable state every two consecutive snake segments
are grid neighbours: equal in one coordinate and exactly 1 apart in the other, that is
`|dx| + |dy| = 1`. -/
theorem contiguity_invariant (m : model) (h : Reachable m) :
    m.snake.Chain' (fun p q => neighbours p q ∧
      (p.x - q.x).natAbs + (p.y - q.y).natAbs = 1) := by
  refine List.Chain'.imp ?_ (Reachable_chain m h)
  intro p q hpq
  refine ⟨hpq, ?_⟩
  unfold neighbours at hpq
  omega

/-- C19, on the two-segment snake that has just eaten: (11,5) and (10,5) are neighbours. -/
theorem contiguity_invariant_witness :
    stateFed.snake.Chain' (fun p q => neighbours p q ∧
      (p.x - q.x).natAbs + (p.y - q.y).natAbs = 1) :=
  contiguity_invariant stateFed stateFed_reachable

/-- A step of `Update` keeps the length of the snake or makes it one longer. -/
theorem Update_length (m m1 : model) (c : Cmd) (msg : Msg) (rx ry : Nat)
    (h : Update m msg rx ry = some (m1, c)) :
    m1.snake.length = m.snake.length ∨ m1.snake.length = m.snake.length + 1 := by
  rcases Update_cases m m1 c msg rx ry h with h1 | h1 | h1 | h1 | h1 | h1
  · rw [h1.1]; exact Or.inl rfl
  · obtain ⟨-, -, d, -, e⟩ := h1
    rw [e]; exact Or.inl rfl
  · rw [h1.2.2]; exact Or.inl rfl
  · rw [h1.2.2]; exact Or.inl rfl
  · obtain ⟨-, -, head, tl, fx, fy, -, -, -, -, -, -, -, -, e⟩ := h1
    rw [e]; exact Or.inr rfl
  · obtain ⟨-, -, head, tl, hsn, -, -, -, e⟩ := h1
    rw [e]
    left
    simp [hsn]

/-- A reachable snake has at most 200 segments: they are distinct cells of the 20 x 10 board. -/
theorem Reachable_length (m : model) (h : Reachable m) : m.snake.length ≤ 200 := by
  obtain ⟨hw, hh⟩ := Reachable_board m h
  obtain ⟨hs, -⟩ := Reachable_inBoard m h
  have hnd := Reachable_nodup m h
  have hsub : m.snake.toFinset ⊆ (Finset.range 20 ×ˢ Finset.range 10).image
      (fun ab : Nat × Nat => ({ x := (ab.1 : Int), y := (ab.2 : Int) } : position)) := by
    intro p hp
    rw [List.mem_toFinset] at hp
    have hb := hs p hp
    unfold inBoard at hb
    rw [hw, hh] at hb
    rw [Finset.mem_image]
    refine ⟨(p.x.toNat, p.y.toNat), ?_, ?_⟩
    · simp only [Finset.mem_product, Finset.mem_range]
      omega
    · cases p with
      | mk px py =>
        simp only at hb
        simp only [position.mk.injEq]
        omega
  have hcard := (Finset.card_le_card hsub).trans Finset.card_image_le
  rw [List.toFinset_card_of_nodup hnd, Finset.card_product, Finset.card_range,
    Finset.card_range] at hcard
  exact hcard

/-- C20. Length bound: in every reachable state the snake's length is at most
`width * height`, which is 200 on the 20 x 10 board `initialModel` creates; and across every
single step of `Update` the snake's length stays the same or grows by exactly one. -/
theorem length_bound :
    (∀ m : model, Reachable m →
      (m.snake.length : Int) ≤ m.width * m.height ∧ m.width * m.height = 200) ∧
    (∀ (m m1 : model) (c : Cmd) (msg : Msg) (rx ry : Nat), Update m msg rx ry = some (m1, c) →
      m1.snake.length = m.snake.length ∨ m1.snake.length = m.snake.length + 1) := by
  refine ⟨?_, fun m m1 c msg rx ry hu => Update_length m m1 c msg rx ry hu⟩
  intro m h
  obtain ⟨hw, hh⟩ := Reachable_board m h
  have hl := Reachable_length m h
  rw [hw, hh]
  omega

/-- C20, on the snake that has just eaten, and on the step that made it eat. -/
theorem length_bound_witness :
    ((stateFed.snake.length : Int) ≤ stateFed.width * stateFed.height ∧
      stateFed.width * stateFed.height = 200) ∧
    (stateFed.snake.length = ({ stateFoodAhead with tickCount := 1 } : model).snake.length ∨
      stateFed.snake.length = ({ stateFoodAhead with tickCount := 1 } : model).snake.length + 1) :=
  ⟨length_bound.1 stateFed stateFed_reachable,
   length_bound.2 { stateFoodAhead with tickCount := 1 } stateFed Cmd.tick Msg.time 7 8
     (by decide)⟩

end Snake
